import Mathlib

/-!
Verification of the client-side routing core (distributed sender and
multi-replica RPC sender) of a range-partitioned key-value store.

The definitions below are shallow embeddings of the Go source:
  * `kv/dist_sender.go` — `Send`, `sendChunk`, `optimizeReplicaOrder`,
    `updateLeaderCache`, `getDescriptors`;
  * the multi-replica `send` function (the `kv` RPC sender).
Keys are byte strings ordered lexicographically in the source; here they are
modelled by `Nat` with its order, which is all the verified properties use.
Machine integers (`int64` counters and bounds) are modelled by `Int`; row
counts (`len(Rows)`) by `Nat`. Helpers of the repository that are not part of
the given sources (replica-slice ordering, leader-cache storage, batch
truncation, response combination, `IsPossibleTransaction`) are modelled from
the specification and say so in their doc comments.
-/

namespace CockroachKV

/-- ReplicaDescriptor: node/store/replica identity of one replica
(`roachpb.ReplicaDescriptor`). -/
structure ReplicaDescriptor where
  nodeID : Nat
  storeID : Nat
  replicaID : Nat
deriving Repr, DecidableEq

/-- The zero value of `roachpb.ReplicaDescriptor`; the leader cache uses it
for "unknown leader". -/
def zeroReplicaDescriptor : ReplicaDescriptor := ⟨0, 0, 0⟩

/-- RangeDescriptor: range identity, key span `[startKey, endKey)` and the
replica set (`roachpb.RangeDescriptor`). -/
structure RangeDescriptorM where
  rangeID : Nat
  startKey : Nat
  endKey : Nat
  replicas : List ReplicaDescriptor
deriving Repr, DecidableEq

/-! ## Multi-replica sender (`send`, the kv RPC sender)

The event-driven completion loop of `send` is modelled as a state machine:
one step per `select` arm (send-next timer firing, or a completion arriving
on the `done` channel).  A run is driven by a list of events. -/

/-- RPC-level error classification seen on the `done` channel:
`unexpectedEOF` models `io.ErrUnexpectedEOF` (a disconnect);
`retryableErr canRetry` models an error implementing `retry.Retryable`;
`plainErr` any other error. -/
inductive RpcErrM
  | unexpectedEOF
  | retryableErr (canRetry : Bool)
  | plainErr
deriving Repr, DecidableEq

/-- Classification from `send`: `disconnected := err == io.ErrUnexpectedEOF;
if retryErr, ok := err.(retry.Retryable); disconnected || (ok && retryErr.CanRetry())`. -/
def rpcErrRetryable : RpcErrM → Bool
  | .unexpectedEOF => true
  | .retryableErr canRetry => canRetry
  | .plainErr => false

/-- One event consumed by `send`'s completion loop: the send-next timer
firing, or a completion (`batchCall`) arriving; `none` is a successful reply. -/
inductive SendEventM
  | timerFires
  | completion (err : Option RpcErrM)
deriving Repr, DecidableEq

/-- State of `send`'s completion loop: the not-yet-dispatched suffix of
`orderedClients`, the clients dispatched so far (in dispatch order; a ghost
record of the `sendOneFn` calls), and the `errors` / `retryableErrors`
counters. -/
structure SendLoopState where
  orderedClients : List ReplicaDescriptor
  dispatched : List ReplicaDescriptor
  errCount : Nat
  retryableErrCount : Nat
deriving Repr, DecidableEq

/-- Dispatch the next replica if any remain (`if len(orderedClients) > 0 {
sendOneFn(orderedClients[0], ...); orderedClients = orderedClients[1:] }`). -/
def dispatchNext (s : SendLoopState) : SendLoopState :=
  match s.orderedClients with
  | [] => s
  | c :: rest => { s with orderedClients := rest, dispatched := s.dispatched ++ [c] }

/-- Terminal outcome of the completion loop: a successful reply, or the
aggregate "too many errors encountered" send error with its retryable flag. -/
inductive SendDoneM
  | success
  | tooManyErrors (retryable : Bool)
deriving Repr, DecidableEq

/-- One iteration of `send`'s `for { select { ... } }` loop, for a call over
`n = len(replicas)` replicas.  Returns the terminal outcome if the iteration
returns, and the successor state. -/
def sendLoopStepM (n : Nat) (s : SendLoopState) (ev : SendEventM) :
    Option SendDoneM × SendLoopState :=
  match ev with
  | .timerFires => (none, dispatchNext s)
  | .completion none => (some .success, s)
  | .completion (some e) =>
    let s1 : SendLoopState :=
      { s with errCount := s.errCount + 1,
               retryableErrCount :=
                 s.retryableErrCount + (if rpcErrRetryable e then 1 else 0) }
    let remainingNonErrorRPCs : Int := (n : Int) - (s1.errCount : Int)
    if remainingNonErrorRPCs < 1 then
      (some (.tooManyErrors
        (decide (1 ≤ remainingNonErrorRPCs + (s1.retryableErrCount : Int)))), s1)
    else
      (none, dispatchNext s1)

/-- Run the completion loop over a list of events, stopping at the first
terminal outcome; returns the outcome (or `none` if the scripted events ran
out while the loop was still waiting) and the state reached. -/
def sendLoopRunM (n : Nat) (s : SendLoopState) :
    List SendEventM → Option SendDoneM × SendLoopState
  | [] => (none, s)
  | ev :: evs =>
    match sendLoopStepM n s ev with
    | (some d, s1) => (some d, s1)
    | (none, s1) => sendLoopRunM n s1 evs

/-- Result of a whole `send` call. -/
inductive SendResultM
  | insufficientReplicas (retryable : Bool)
  | dialError
  | loopOutcome (d : Option SendDoneM)
deriving Repr, DecidableEq

/-- Trace of a `send` call: its result, how many `GRPCDial` calls it made,
and the final completion-loop state (zero state for pre-loop exits). -/
structure SendRun where
  result : SendResultM
  dials : Nat
  finalState : SendLoopState
deriving Repr, DecidableEq

/-- The eager per-replica dial loop of `send`: dials each replica in order,
aborting the whole call on the first dial failure.  Returns the client list
(one per replica) and the number of dial calls made. -/
def dialAll (dialOk : ReplicaDescriptor → Bool) :
    List ReplicaDescriptor → Option (List ReplicaDescriptor) × Nat
  | [] => (some [], 0)
  | r :: rs =>
    if dialOk r then
      match dialAll dialOk rs with
      | (some cs, k) => (some (r :: cs), k + 1)
      | (none, k) => (none, k + 1)
    else (none, 1)

/-- The multi-replica `send`: insufficient-replicas check, eager dialing,
ordering (stable keeps the dialed order; random applies the caller-supplied
permutation `shuffle`, abstracting the healthy-first double shuffle), initial
dispatch, then the completion loop driven by `events`. -/
def sendM (replicas : List ReplicaDescriptor) (dialOk : ReplicaDescriptor → Bool)
    (shuffle : List ReplicaDescriptor → List ReplicaDescriptor) (useShuffle : Bool)
    (events : List SendEventM) : SendRun :=
  if replicas.length < 1 then
    { result := .insufficientReplicas false, dials := 0, finalState := ⟨[], [], 0, 0⟩ }
  else
    match dialAll dialOk replicas with
    | (none, k) => { result := .dialError, dials := k, finalState := ⟨[], [], 0, 0⟩ }
    | (some clients, k) =>
      let orderedClients := if useShuffle then shuffle clients else clients
      match orderedClients with
      | [] =>
        -- unreachable when the ordering preserves the (nonempty) client list;
        -- the source would fail indexing orderedClients[0]
        { result := .loopOutcome none, dials := k, finalState := ⟨[], [], 0, 0⟩ }
      | c :: rest =>
        let res := sendLoopRunM replicas.length ⟨rest, [c], 0, 0⟩ events
        { result := .loopOutcome res.1, dials := k, finalState := res.2 }

/-! ## sendChunk retry-loop error handling

The `switch tErr := pErr.GetDetail().(type)` of `sendChunk`'s per-range retry
loop, together with `updateLeaderCache`.  The descriptor-cache eviction
(`evictDesc()`) and the backoff reset (`r.Reset()`) are recorded as ghost
counters. -/

/-- Leader cache contents: range identifier → last observed leader replica.
Modelled from the spec: "Leader Cache Entry: range identifier → last observed
leaseholder replica descriptor (zero value = unknown)"; the LRU storage
(`leaderCache`) is not part of the given sources, so it is an association
list whose lookup yields the zero replica descriptor when no entry exists. -/
abbrev LeaderCacheM := List (Nat × ReplicaDescriptor)

/-- Leader cache lookup (`ds.leaderCache.Lookup`): the cached replica, or the
zero value when the range has no entry. -/
def lcLookup (c : LeaderCacheM) (rid : Nat) : ReplicaDescriptor :=
  match c.find? (fun e => e.1 == rid) with
  | some e => e.2
  | none => zeroReplicaDescriptor

/-- Leader cache update (`ds.leaderCache.Update`): install `l` as the entry
for range `rid`, superseding any previous entry. -/
def lcUpdate (c : LeaderCacheM) (rid : Nat) (l : ReplicaDescriptor) : LeaderCacheM :=
  (rid, l) :: c.filter (fun e => e.1 != rid)

/-- `DistSender.updateLeaderCache`: look up the old leader and update the
cache only when the store identifier actually changed. -/
def updateLeaderCacheM (c : LeaderCacheM) (rid : Nat) (leader : ReplicaDescriptor) :
    LeaderCacheM :=
  let oldLeader := lcLookup c rid
  if leader.storeID ≠ oldLeader.storeID then lcUpdate c rid leader else c

/-- Modelled from the spec: `RangeDescriptor.FindReplica` (membership of a
store in the descriptor's replica set; the `roachpb` helper itself is not
part of the given sources).  Returns the index of the first replica with the
given store identifier, or -1 when absent — `sendChunk` compares the result
with -1. -/
def findReplicaIdx (replicas : List ReplicaDescriptor) (storeID : Nat) : Int :=
  match replicas with
  | [] => -1
  | r :: rest =>
    if r.storeID = storeID then 0
    else
      let i := findReplicaIdx rest storeID
      if i < 0 then -1 else i + 1

/-- State threaded through `sendChunk`'s retry loop: the `considerIntents`
flag, the leader cache, and ghost counters for `evictDesc()` and `r.Reset()`
invocations. -/
structure RetryState where
  considerIntents : Bool
  leaderCache : LeaderCacheM
  evictCount : Nat
  resetCount : Nat
deriving Repr, DecidableEq

/-- The reply errors distinguished by the retry loop's type switch. -/
inductive ReplyErrorM
  | sendErr (canRetry : Bool)
  | rangeNotFound
  | rangeKeyMismatch
  | notLeader (leader : Option ReplicaDescriptor)
  | otherRetryable (canRetry : Bool)
  | nonRetryable
deriving Repr, DecidableEq

/-- Outcome of one pass through the error switch: continue the retry loop
with a new state, or fall out of the loop (the error is then returned). -/
inductive RetryStepResult
  | continueRetry (s : RetryState)
  | breakLoop (s : RetryState)
deriving Repr, DecidableEq

/-- Shared body of the `RangeNotFoundError` / `RangeKeyMismatchError` case:
evict the descriptor, reset the backoff, and allow intents on subsequent
descriptor lookups. -/
def addressingErrStep (s : RetryState) : RetryStepResult :=
  .continueRetry { s with
    evictCount := s.evictCount + 1,
    resetCount := s.resetCount + 1,
    considerIntents := true }

/-- The error switch of `sendChunk`'s retry loop, for the range descriptor
`desc` the failed attempt was routed by. -/
def chunkErrorStep (s : RetryState) (desc : RangeDescriptorM) (e : ReplyErrorM) :
    RetryStepResult :=
  match e with
  | .sendErr canRetry =>
    let s1 := { s with evictCount := s.evictCount + 1 }
    if canRetry then .continueRetry s1 else .breakLoop s1
  | .rangeNotFound => addressingErrStep s
  | .rangeKeyMismatch => addressingErrStep s
  | .notLeader leader? =>
    match leader? with
    | some newLeader =>
      let s1 :=
        if findReplicaIdx desc.replicas newLeader.storeID = -1 then
          { s with evictCount := s.evictCount + 1 }
        else s
      let s2 := { s1 with
        leaderCache := updateLeaderCacheM s1.leaderCache desc.rangeID newLeader }
      .continueRetry { s2 with resetCount := s2.resetCount + 1 }
    | none =>
      let s1 := { s with evictCount := s.evictCount + 1 }
      let s2 := { s1 with
        leaderCache := updateLeaderCacheM s1.leaderCache desc.rangeID zeroReplicaDescriptor }
      .continueRetry { s2 with resetCount := s2.resetCount + 1 }
  | .otherRetryable canRetry =>
    if canRetry then .continueRetry s else .breakLoop s
  | .nonRetryable => .breakLoop s

/-- Modelled from the spec: the authoritative range lookup, when the request
allows it to consider uncommitted intent values, chooses at random — with
50% probability — between the intent value and the previously committed
value; when not allowed it always uses the committed value.  The lookup
implementation is not part of the given sources; `coin` is the random
choice. -/
def lookupConsidersIntents (considerIntents coin : Bool) : Bool :=
  considerIntents && coin

/-! ## Requests and responses

Closed models of the request/response union types, with the fields the
verified code paths read: key spans, the `Bounded` bound (`MaxResults` of
scans), and the `Countable` count (`len(Rows)` of scan responses). -/

/-- Request union: forward scan and reverse scan (both `Bounded`, spans
`[key, endKey)`), a transaction-completion request (`EndTransaction`, keyed
at the transaction record), a ranged request that cannot be part of a
transaction (e.g. a range lookup; used to model `IsPossibleTransaction`),
and `NoopRequest`. -/
inductive RequestM
  | scan (key endKey : Nat) (maxResults : Int)
  | revScan (key endKey : Nat) (maxResults : Int)
  | endTxn (key : Nat)
  | nonTxnRanged (key endKey : Nat)
  | noop
deriving Repr, DecidableEq

/-- `Bounded.GetBound`: only scans and reverse scans carry a bound. -/
def getBound : RequestM → Option Int
  | .scan _ _ b => some b
  | .revScan _ _ b => some b
  | _ => none

/-- `Bounded.SetBound`. -/
def setBound : RequestM → Int → RequestM
  | .scan k ek _, b => .scan k ek b
  | .revScan k ek _, b => .revScan k ek b
  | r, _ => r

/-- Whether a request is a forward scan. -/
def isFwdScan : RequestM → Bool
  | .scan _ _ _ => true
  | _ => false

/-- Whether a request is a reverse scan. -/
def isRevScan : RequestM → Bool
  | .revScan _ _ _ => true
  | _ => false

/-- Whether a request is a scan of either direction. -/
def isScanKind (r : RequestM) : Bool := isFwdScan r || isRevScan r

/-- Whether every request of a batch is a scan of either direction (what
`Send`'s limit check guarantees for batches with `MaxScanResults ≠ 0`). -/
def allScanOrRev (reqs : List RequestM) : Bool := reqs.all isScanKind

/-- Response union: `NoopResponse`, scan / reverse-scan responses carrying
their row count (`Countable`), and any other (non-countable) response. -/
inductive RespM
  | noop
  | scanResp (count : Nat)
  | revScanResp (count : Nat)
  | otherResp
deriving Repr, DecidableEq

/-- `Countable.Count` where implemented. -/
def respCountOpt : RespM → Option Nat
  | .scanResp c => some c
  | .revScanResp c => some c
  | _ => none

/-- Count contributed by one response to `numResults` (0 for responses that
are not `Countable`). -/
def respCount (r : RespM) : Nat := (respCountOpt r).getD 0

/-- `numResults`: sum of the counts of the countable responses of a reply. -/
def countSum (rs : List RespM) : Nat := (rs.map respCount).sum

/-- Combination of two per-request responses.  Modelled from the spec:
"merge the sub-response into the accumulated response ... subsequent ones
are combined by concatenating per-request results" (`BatchResponse.Combine`
is not part of the given sources).  A no-op response is the identity; scan
rows concatenate, so counts add; combining responses of different kinds (or
two non-combinable responses) fails, which cannot arise for replies that are
parallel to their requests. -/
def combineResp : RespM → RespM → Option RespM
  | x, .noop => some x
  | .noop, y => some y
  | .scanResp a, .scanResp b => some (.scanResp (a + b))
  | .revScanResp a, .revScanResp b => some (.revScanResp (a + b))
  | _, _ => none

/-- Slot-wise combination of an accumulated reply with the current range's
reply (`br.Combine(curReply)`); fails on length mismatch, which cannot arise
since both are parallel to the batch's requests. -/
def combineBatch : List RespM → List RespM → Option (List RespM)
  | [], [] => some []
  | x :: xs, y :: ys =>
    match combineResp x y, combineBatch xs ys with
    | some z, some zs => some (z :: zs)
    | _, _ => none
  | _, _ => none

/-- Well-typedness of one response slot against its request: replicas answer
each request slot either with a no-op (request not active on that range) or
with a response of the request's kind. -/
def respKindOk : RequestM → RespM → Bool
  | _, .noop => true
  | .scan _ _ _, .scanResp _ => true
  | .revScan _ _ _, .revScanResp _ => true
  | .endTxn _, .otherResp => true
  | .nonTxnRanged _ _, .otherResp => true
  | _, _ => false

/-- Well-typedness of a whole single-range reply against the batch's
requests (slot-parallel). -/
def wellTyped : List RequestM → List RespM → Bool
  | [], [] => true
  | o :: os, r :: rs => respKindOk o r && wellTyped os rs
  | _, _ => false

/-- Invariant of one request slot during `sendChunk`'s per-range loop, for a
batch of scans: `o` is the original request, `c` the current (possibly
masked) request, `r` the accumulated response.  The current request is
either still a scan of the original kind, or masked to a no-op — and a
masked slot always has a countable accumulated response (it was masked
because it saturated). -/
def slot1 : RequestM → RequestM → RespM → Bool
  | .scan _ _ _, .scan _ _ _, .noop => true
  | .scan _ _ _, .scan _ _ _, .scanResp _ => true
  | .scan _ _ _, .noop, .scanResp _ => true
  | .revScan _ _ _, .revScan _ _ _, .noop => true
  | .revScan _ _ _, .revScan _ _ _, .revScanResp _ => true
  | .revScan _ _ _, .noop, .revScanResp _ => true
  | _, _, _ => false

/-- Slot-parallel version of `slot1`. -/
def slotInv : List RequestM → List RequestM → List RespM → Bool
  | [], [], [] => true
  | o :: os, c :: cs, r :: rs => slot1 o c r && slotInv os cs rs
  | _, _, _ => false

/-- Every slot of the reply holds a non-no-op response of its request's
kind (the state after the exactly-reached-bound replacement). -/
def filledTyped : List RequestM → List RespM → Bool
  | [], [] => true
  | .scan _ _ _ :: os, .scanResp _ :: rs => filledTyped os rs
  | .revScan _ _ _ :: os, .revScanResp _ :: rs => filledTyped os rs
  | _, _ => false

/-- One slot of `filledTyped`: a non-no-op response of the request's kind. -/
def slotFilled : RequestM → RespM → Bool
  | .scan _ _ _, .scanResp _ => true
  | .revScan _ _ _, .revScanResp _ => true
  | _, _ => false

/-! ## sendChunk: global result bound handling

The success path of one iteration of `sendChunk`'s per-range loop:
merging `curReply` into `br`, the `ba.MaxScanResults > 0` accounting with
its truncation of no-op slots at exactly-zero remaining bound, the
saturation masking of bounded requests, and the `needAnother` loop exit. -/

/-- Replacement performed when the global bound is exactly reached: a slot
whose accumulated response is still a no-op gets an empty response typed
after its request — `ScanResponse` for a `ScanRequest`, otherwise the
request is asserted to be a `ReverseScanRequest` (any other kind would make
the source's type assertion fail, modelled as `none`). -/
def replaceNoop1 (req : RequestM) (resp : RespM) : Option RespM :=
  match resp with
  | .noop =>
    match req with
    | .scan _ _ _ => some (.scanResp 0)
    | .revScan _ _ _ => some (.revScanResp 0)
    | _ => none
  | r => some r

/-- Slot-wise no-op replacement over the (possibly masked) request list and
the accumulated reply; fails on length mismatch, which cannot arise. -/
def replaceNoops : List RequestM → List RespM → Option (List RespM)
  | [], [] => some []
  | req :: reqs, resp :: resps =>
    match replaceNoop1 req resp, replaceNoops reqs resps with
    | some z, some zs => some (z :: zs)
    | _, _ => none
  | _, _ => none

/-- Saturation masking for one request slot, given the current range's
response for that slot.  Returns the (possibly masked) request and its
contribution to the recomputed `needAnother`: no-op requests are skipped;
non-`Bounded` requests always need another range; a bounded request whose
reply was not countable, or whose bound is not positive, needs another
range unchanged; one whose remaining bound drops to zero or below is masked
out as a no-op; otherwise its bound is decremented and it needs another
range. -/
def maskOne (req : RequestM) (resp : RespM) : RequestM × Bool :=
  match req with
  | .noop => (.noop, false)
  | r =>
    match getBound r with
    | none => (r, true)
    | some prevBound =>
      match respCountOpt resp with
      | none => (r, true)
      | some c =>
        if prevBound ≤ 0 then (r, true)
        else if prevBound - (c : Int) ≤ 0 then (.noop, false)
        else (setBound r (prevBound - (c : Int)), true)

/-- Slot-wise saturation masking over the batch's requests and the current
range's reply; the recomputed `needAnother` is the disjunction of the slot
contributions (it starts false: "Start with the assumption that all requests
are saturated").  A missing response slot (length mismatch) cannot arise and
leaves the remaining requests untouched. -/
def maskRequests : List RequestM → List RespM → List RequestM × Bool
  | [], _ => ([], false)
  | req :: reqs, [] => (req :: reqs, true)
  | req :: reqs, resp :: resps =>
    let h := maskOne req resp
    let t := maskRequests reqs resps
    (h.1 :: t.1, h.2 || t.2)

/-- State of `sendChunk`'s per-range loop that the bound handling touches:
the remaining global bound (`ba.MaxScanResults`, decremented as results
arrive), the batch's request slots (`ba.Requests`, masked as requests
saturate), and the accumulated response (`br`, `none` before the first
range's reply). -/
structure ChunkState where
  maxScanResults : Int
  requests : List RequestM
  br : Option (List RespM)
deriving Repr, DecidableEq

/-- Result of processing one range's successful reply. -/
inductive ProcessResult
  | done (br : List RespM)
  | internalError
  | continueLoop (st : ChunkState)
deriving Repr, DecidableEq

/-- The tail of the loop body: if this lookup said the span extends further,
recompute `needAnother` by masking saturated requests against `curReply`;
exit the loop with the accumulated reply when no request needs another
range. -/
def afterBoundStep (st : ChunkState) (br : List RespM) (curReply : List RespM)
    (needAnother : Bool) : ProcessResult :=
  if needAnother then
    let m := maskRequests st.requests curReply
    if m.2 then .continueLoop { st with requests := m.1 } else .done br
  else .done br

/-- The success path of one `sendChunk` loop iteration: merge `curReply`
into the accumulated `br`; under a positive global bound, count the results
(more than the remaining bound is the source's panic, modelled as
`internalError`), subtract, and on exactly-zero remaining bound replace
still-no-op slots by typed empty responses and return; otherwise fall
through to the saturation masking and the loop-exit test. -/
def processRangeReply (st : ChunkState) (curReply : List RespM) (needAnother : Bool) :
    ProcessResult :=
  let brO := match st.br with
    | none => some curReply
    | some b => combineBatch b curReply
  match brO with
  | none => .internalError
  | some br =>
    if 0 < st.maxScanResults then
      let numResults := countSum curReply
      if st.maxScanResults < (numResults : Int) then .internalError
      else
        let remaining := st.maxScanResults - (numResults : Int)
        if remaining = 0 then
          match replaceNoops st.requests br with
          | none => .internalError
          | some br2 => .done br2
        else
          afterBoundStep { st with maxScanResults := remaining, br := some br }
            br curReply needAnother
    else
      afterBoundStep { st with br := some br } br curReply needAnother

/-- Outcome of `sendChunk`'s per-range loop restricted to the success path:
a combined response, an internal panic, or exhaustion of the scripted
per-range replies while another range was still needed. -/
inductive ChunkLoopResult
  | done (br : List RespM)
  | internalError
  | exhausted (st : ChunkState)
deriving Repr, DecidableEq

/-- Drive the per-range loop over a list of scripted range results, each a
successful reply together with the `needAnother` flag its descriptor lookup
computed. -/
def chunkBoundLoop (st : ChunkState) : List (List RespM × Bool) → ChunkLoopResult
  | [] => .exhausted st
  | (cur, na) :: rest =>
    match processRangeReply st cur na with
    | .done br => .done br
    | .internalError => .internalError
    | .continueLoop st2 => chunkBoundLoop st2 rest

/-- Loop invariant of `sendChunk`'s bound handling for an all-scan batch
whose initial global bound was `K`: the remaining bound stays between 1 and
`K`; before the first range's reply the requests are the originals and the
bound untouched; afterwards the accumulated reply satisfies the slot
invariant and accounts for exactly the results consumed from the bound. -/
def chunkInvP (K : Int) (os : List RequestM) (st : ChunkState) : Prop :=
  1 ≤ st.maxScanResults ∧ st.maxScanResults ≤ K ∧
    ((st.br = none ∧ st.requests = os ∧ st.maxScanResults = K) ∨
     (∃ b, st.br = some b ∧ slotInv os st.requests b = true ∧
       (countSum b : Int) = K - st.maxScanResults))

/-! ## sendChunk: pre-dispatch phase of one retry iteration

The part of the retry-loop body between the descriptor lookup and the RPC
dispatch: the multi-range guards (`OpRequiresTxnError`, the
split-EndTransaction signal), the descriptor-coverage check, truncation, and
the empty-truncation guard. -/

/-- The resolved key span of the batch (`roachpb.RSpan`), addresses already
translated. -/
structure RSpanM where
  key : Nat
  endKey : Nat
deriving Repr, DecidableEq

/-- Read consistency of a batch; the code only distinguishes `INCONSISTENT`
from the rest. -/
inductive ReadConsistencyM
  | consistent
  | inconsistent
deriving Repr, DecidableEq

/-- Modelled from the spec: `ba.IsPossibleTransaction()` (a `roachpb` batch
helper not part of the given sources) — whether the batch contains at least
one request that may be part of a transaction; scans, reverse scans and
transaction-completion requests may, while e.g. a range lookup may not. -/
def reqIsPossibleTxn : RequestM → Bool
  | .scan _ _ _ => true
  | .revScan _ _ _ => true
  | .endTxn _ => true
  | _ => false

/-- Modelled from the spec: `ba.IsPossibleTransaction()`, see
`reqIsPossibleTxn`. -/
def isPossibleTransaction (reqs : List RequestM) : Bool :=
  reqs.any reqIsPossibleTxn

/-- Whether the batch's last request is a transaction-completion request
(`ba.Requests[l].GetInner().Method() == roachpb.EndTransaction`). -/
def lastIsEndTxn (reqs : List RequestM) : Bool :=
  match reqs.getLast? with
  | some (.endTxn _) => true
  | _ => false

/-- The `needAnother` test of `getDescriptors`: for a reverse scan the span
still starts before the descriptor; otherwise the descriptor ends before the
span does. -/
def chunkNeedAnother (rs : RSpanM) (desc : RangeDescriptorM) (isReverse : Bool) : Bool :=
  if isReverse then rs.key < desc.startKey else desc.endKey < rs.endKey

/-- Modelled from the spec key algebra: `RangeDescriptor.ContainsKeyRange`
(the `roachpb` helper is not part of the given sources) — the descriptor's
span `[startKey, endKey)` covers `[s, e)`. -/
def rdContainsKeyRange (d : RangeDescriptorM) (s e : Nat) : Bool :=
  d.startKey ≤ s && e ≤ d.endKey

/-- Modelled from the spec: `rs.Intersect(desc)` of the key utilities (not
part of the given sources) — the intersection of the remaining span with the
descriptor's span, failing when it is empty. -/
def rsIntersect (rs : RSpanM) (d : RangeDescriptorM) : Option RSpanM :=
  let k := max rs.key d.startKey
  let ek := min rs.endKey d.endKey
  if k < ek then some ⟨k, ek⟩ else none

/-- Modelled from the spec: "Truncate the batch to the intersection of the
remaining span and the resolved descriptor" (`truncate` is not part of the
given sources) — clip one request to the sub-span, turning it into a no-op
when nothing of it remains. -/
def truncateReq (r : RequestM) (s : RSpanM) : RequestM :=
  match r with
  | .scan k ek b =>
    if max k s.key < min ek s.endKey then .scan (max k s.key) (min ek s.endKey) b
    else .noop
  | .revScan k ek b =>
    if max k s.key < min ek s.endKey then .revScan (max k s.key) (min ek s.endKey) b
    else .noop
  | .endTxn k => if s.key ≤ k && k < s.endKey then .endTxn k else .noop
  | .nonTxnRanged k ek =>
    if max k s.key < min ek s.endKey then .nonTxnRanged (max k s.key) (min ek s.endKey)
    else .noop
  | .noop => .noop

/-- Modelled from the spec: batch truncation — the clipped requests and
`numActive`, the number of requests still active on this range. -/
def truncateBatch (reqs : List RequestM) (s : RSpanM) : List RequestM × Nat :=
  let ts := reqs.map (fun r => truncateReq r s)
  (ts, (ts.filter (fun r => r ≠ .noop)).length)

/-- The batch fields `sendChunk`'s pre-dispatch phase reads: the request
slots, whether `ba.Txn` is set, and the read consistency. -/
structure ChunkBatchM where
  requests : List RequestM
  hasTxn : Bool
  readConsistency : ReadConsistencyM
deriving Repr, DecidableEq

/-- Errors `sendChunk` can return from the pre-dispatch phase. -/
inductive ChunkErrM
  | lookupErr (retryable : Bool)
  | opRequiresTxn
  | cannotSend1PC
  | intersectErr
  | truncationEmpty
deriving Repr, DecidableEq

/-- Retryability of the pre-dispatch errors.  `OpRequiresTxnError` and the
truncation errors are constructed without a retryable marker (the spec calls
them non-retryable usage errors); only a descriptor-lookup failure carries
its own flag. -/
def chunkErrRetryable : ChunkErrM → Bool
  | .lookupErr r => r
  | _ => false

/-- Outcome of the pre-dispatch phase of one retry iteration. -/
inductive IterOutcome
  | retryLookupErr
  | abort (e : ChunkErrM) (shouldSplitET : Bool)
  | evictRetry
  | dispatch (truncated : List RequestM) (numActive : Nat)
deriving Repr, DecidableEq

/-- The pre-dispatch phase of one iteration of `sendChunk`'s retry loop:
handle a descriptor-lookup failure; on the first range of a span that needs
more ranges, fail a transaction-less consistent batch that could be a
transaction with `OpRequiresTxnError`, and signal the caller to re-split a
batch ending in `EndTransaction`; evict and retry when the descriptor does
not cover its part of the span; then truncate and — unless truncation left
no active request — dispatch the sub-batch (`brNil` is `br == nil`, i.e.
whether no range has answered yet). -/
def chunkIterPreDispatch (ba : ChunkBatchM) (rs : RSpanM) (isReverse : Bool)
    (brNil : Bool) (lookup : Option RangeDescriptorM) (lookupRetryable : Bool) :
    IterOutcome :=
  match lookup with
  | none => if lookupRetryable then .retryLookupErr else .abort (.lookupErr false) false
  | some desc =>
    let needAnother := chunkNeedAnother rs desc isReverse
    if needAnother && brNil && !ba.hasTxn && isPossibleTransaction ba.requests
        && !(ba.readConsistency == .inconsistent) then
      .abort .opRequiresTxn false
    else if needAnother && brNil && decide (0 < ba.requests.length - 1)
        && lastIsEndTxn ba.requests then
      .abort .cannotSend1PC true
    else if (isReverse && !(rdContainsKeyRange desc desc.startKey rs.endKey))
        || (!isReverse && !(rdContainsKeyRange desc rs.key desc.endKey)) then
      .evictRetry
    else
      match rsIntersect rs desc with
      | none => .abort .intersectErr false
      | some inter =>
        let t := truncateBatch ba.requests inter
        if t.2 = 0 then .abort .truncationEmpty false
        else .dispatch t.1 t.2

/-! ## DistSender.Send

The batch-level entry point: the `MaxScanResults` admissibility checks, the
per-part `sendChunk` loop, and the recombination of the per-part replies.
The per-part `sendChunk` results are scripted (`ChunkOutcome`), and the
number of parts is the length of `ba.Split`'s result, taken as a
parameter (`Split` is not part of the given sources). -/

/-- One `BatchResponse`: its header (`BatchResponse_Header`, abstracted to
an identity since `Send` only copies it whole), the per-request responses,
and the collected trace spans. -/
structure BatchResponseM where
  header : Nat
  responses : List RespM
  collectedSpans : List Nat
deriving Repr, DecidableEq

/-- Result of one `sendChunk` call as seen by `Send`'s loop. -/
inductive ChunkOutcome
  | ok (rpl : BatchResponseM)
  | chunkErr (retryable : Bool)
  | splitET
deriving Repr, DecidableEq

/-- Errors `Send` returns before or instead of a combined reply. -/
inductive SendErrM
  | nonScanWithLimit
  | mixedScanDirections
  | chunkFailed (retryable : Bool)
deriving Repr, DecidableEq

/-- Retryability of `Send`'s errors: the two limit-admissibility errors are
built by `roachpb.NewErrorf`, which marks nothing retryable. -/
def sendErrRetryable : SendErrM → Bool
  | .chunkFailed r => r
  | _ => false

/-- Outcome of a `Send` call in this model. -/
inductive SendOutcomeM
  | ok (reply : BatchResponseM)
  | err (e : SendErrM)
  | panicked
  | outOfScript
deriving Repr, DecidableEq

/-- The verification loop for batches with a limit: walk the requests
keeping `fwd, rev` flags, failing on the first request that is neither a
forward nor a reverse scan. -/
def scanFlagsLoop (fwd rev : Bool) : List RequestM → Option (Bool × Bool)
  | [] => some (fwd, rev)
  | r :: rs =>
    match r with
    | .scan _ _ _ => scanFlagsLoop true rev rs
    | .revScan _ _ _ => scanFlagsLoop fwd true rs
    | _ => none

/-- The `ba.MaxScanResults != 0` admissibility check of `Send`: every request
must be a scan or a reverse scan, and the two directions must not be mixed. -/
def maxScanCheck (maxScanResults : Int) (reqs : List RequestM) : Option SendErrM :=
  if maxScanResults ≠ 0 then
    match scanFlagsLoop false false reqs with
    | none => some .nonScanWithLimit
    | some fr => if fr.1 && fr.2 then some .mixedScanDirections else none
  else none

/-- The reply recombination at the end of `Send`: starting from the first
part's reply, append each later part's responses and collected spans, then
overwrite the header with the last part's header. -/
def combineChunks (first : BatchResponseM) (rest : List BatchResponseM) :
    BatchResponseM :=
  let reply := rest.foldl (fun acc rpl =>
    { acc with responses := acc.responses ++ rpl.responses,
               collectedSpans := acc.collectedSpans ++ rpl.collectedSpans }) first
  { reply with header := (rest.getLastD first).header }

/-- `Send`'s per-part loop, driven by scripted `sendChunk` outcomes, with
`parts` the number of parts still to send.  A chunk error is returned; a
`splitET` signal on the final part re-splits it into exactly two parts (on
any other part the source panics); when all parts are done the collected
replies are recombined (none collected is the source's `rplChunks[0]` index
panic).  Also returns how many `sendChunk` calls were made. -/
def sendPartsLoop : Nat → List BatchResponseM → List ChunkOutcome →
    SendOutcomeM × Nat
  | 0, acc, _ =>
    match acc with
    | [] => (.panicked, 0)
    | f :: rest => (.ok (combineChunks f rest), 0)
  | _ + 1, _, [] => (.outOfScript, 0)
  | parts + 1, acc, o :: os =>
    match o with
    | .chunkErr r => (.err (.chunkFailed r), 1)
    | .splitET =>
      if parts + 1 = 1 then
        let t := sendPartsLoop 2 acc os
        (t.1, t.2 + 1)
      else (.panicked, 1)
    | .ok rpl =>
      let t := sendPartsLoop parts (acc ++ [rpl]) os
      (t.1, t.2 + 1)

/-- `DistSender.Send`: panic on an empty batch, the `MaxScanResults`
admissibility checks, the panic when a limited batch splits into more than
one part, then the per-part loop.  Returns the outcome and the number of
`sendChunk` calls made (0 exactly when no range resolution or RPC was
attempted). -/
def SendDS (reqs : List RequestM) (maxScanResults : Int) (parts : Nat)
    (outcomes : List ChunkOutcome) : SendOutcomeM × Nat :=
  if reqs.length < 1 then (.panicked, 0)
  else
    match maxScanCheck maxScanResults reqs with
    | some e => (.err e, 0)
    | none =>
      if 1 < parts ∧ maxScanResults ≠ 0 then (.panicked, 0)
      else sendPartsLoop parts [] outcomes

/-! ## Replica ordering (`optimizeReplicaOrder`) -/

/-- A replica as carried in a `ReplicaSlice`: its node and store identity
and the node's attribute list (attribute labels modelled as numbers). -/
structure ReplicaM where
  nodeID : Nat
  storeID : Nat
  attrs : List Nat
deriving Repr, DecidableEq

/-- The local node's descriptor (`roachpb.NodeDescriptor`): identity and
attributes. -/
structure NodeDescM where
  nodeID : Nat
  attrs : List Nat
deriving Repr, DecidableEq

/-- RPC ordering policy (`orderingPolicy`). -/
inductive OrderingPolicyM
  | orderStable
  | orderRandom
deriving Repr, DecidableEq

/-- Length of the common prefix of two attribute lists. -/
def commonPrefixLen : List Nat → List Nat → Nat
  | a :: as_, b :: bs => if a = b then commonPrefixLen as_ bs + 1 else 0
  | _, _ => 0

/-- Stable descending insertion by a numeric key: an element goes in front
of the first element whose key is not larger, so equal keys keep their
original order. -/
def insertDesc (key : ReplicaM → Nat) (x : ReplicaM) : List ReplicaM → List ReplicaM
  | [] => [x]
  | y :: ys => if key y ≤ key x then x :: y :: ys else y :: insertDesc key x ys

/-- Stable descending insertion sort by a numeric key. -/
def insSortDesc (key : ReplicaM → Nat) : List ReplicaM → List ReplicaM
  | [] => []
  | x :: xs => insertDesc key x (insSortDesc key xs)

/-- Modelled from the spec: `ReplicaSlice.SortByCommonAttributePrefix` (not
part of the given sources) — stable sort placing replicas sharing the
longest common attribute prefix with the node's attributes first, returning
the longest matched prefix length (0 means no attribute matched and the
order is untouched). -/
def sortByCommonAttributePrefix (nodeAttrs : List Nat) (rs : List ReplicaM) :
    List ReplicaM × Nat :=
  let key := fun r => commonPrefixLen nodeAttrs r.attrs
  (insSortDesc key rs, (rs.map key).foldr max 0)

/-- Modelled from the spec: `ReplicaSlice.FindReplicaByNodeID` (not part of
the given sources) — index of the first replica on the given node, or -1. -/
def findReplicaByNodeID (rs : List ReplicaM) (nid : Nat) : Int :=
  match rs with
  | [] => -1
  | r :: rest =>
    if r.nodeID = nid then 0
    else
      let i := findReplicaByNodeID rest nid
      if i < 0 then -1 else i + 1

/-- Modelled from the spec: `ReplicaSlice.MoveToFront` (not part of the
given sources) — move the element at index `i` to the front, shifting the
prefix right. -/
def moveToFront (rs : List ReplicaM) (i : Nat) : List ReplicaM :=
  match rs.get? i with
  | none => rs
  | some l => l :: (rs.take i ++ rs.drop (i + 1))

/-- `DistSender.optimizeReplicaOrder`: default to the random ordering; with
an unknown local node descriptor change nothing; otherwise sort by common
attribute prefix (stable order if any prefix matched), and move a local
replica found at a positive index to the front (stable order).  Returns the
reordered slice together with the policy. -/
def optimizeReplicaOrderM (nodeDesc : Option NodeDescM) (replicas : List ReplicaM) :
    List ReplicaM × OrderingPolicyM :=
  match nodeDesc with
  | none => (replicas, .orderRandom)
  | some nd =>
    let s := sortByCommonAttributePrefix nd.attrs replicas
    let order := if 0 < s.2 then OrderingPolicyM.orderStable else .orderRandom
    let i := findReplicaByNodeID s.1 nd.nodeID
    if 0 < i then (moveToFront s.1 i.toNat, .orderStable)
    else (s.1, order)

/-! ## Supporting lemmas -/

theorem lcLookup_lcUpdate (c : LeaderCacheM) (rid : Nat) (l : ReplicaDescriptor) :
    lcLookup (lcUpdate c rid l) rid = l := by
  simp [lcLookup, lcUpdate, List.find?]

theorem updateLeaderCacheM_storeID (c : LeaderCacheM) (rid : Nat)
    (l : ReplicaDescriptor) :
    (lcLookup (updateLeaderCacheM c rid l) rid).storeID = l.storeID := by
  unfold updateLeaderCacheM
  by_cases h : l.storeID = (lcLookup c rid).storeID
  · simp [h]
  · simp [h, lcLookup_lcUpdate]

theorem dialAll_ok_eq (dialOk : ReplicaDescriptor → Bool) :
    ∀ rs cs k, dialAll dialOk rs = (some cs, k) → cs = rs := by
  intro rs
  induction rs with
  | nil =>
    intro cs k h
    have h1 : some ([] : List ReplicaDescriptor) = some cs := congrArg Prod.fst h
    exact (Option.some.inj h1).symm
  | cons r rest ih =>
    intro cs k h
    cases hr : dialOk r with
    | false => simp [dialAll, hr] at h
    | true =>
      rcases hd : dialAll dialOk rest with ⟨co, k2⟩
      cases co with
      | none => simp [dialAll, hr, hd] at h
      | some cs2 =>
        simp only [dialAll, hr, if_true, hd, Prod.mk.injEq, Option.some.injEq] at h
        obtain ⟨h1, -⟩ := h
        rw [← h1, ih cs2 k2 hd]

theorem dispatchNext_append (s : SendLoopState) :
    (dispatchNext s).dispatched ++ (dispatchNext s).orderedClients =
      s.dispatched ++ s.orderedClients := by
  rcases s with ⟨ord, d, e1, e2⟩
  cases ord <;> simp [dispatchNext]

theorem sendLoopStepM_append (n : Nat) (s : SendLoopState) (ev : SendEventM) :
    (sendLoopStepM n s ev).2.dispatched ++ (sendLoopStepM n s ev).2.orderedClients =
      s.dispatched ++ s.orderedClients := by
  cases ev with
  | timerFires => simpa [sendLoopStepM] using dispatchNext_append s
  | completion err =>
    cases err with
    | none => simp [sendLoopStepM]
    | some e =>
      simp only [sendLoopStepM]
      split
      · simp
      · simpa using dispatchNext_append
          { s with errCount := s.errCount + 1,
                   retryableErrCount :=
                     s.retryableErrCount + (if rpcErrRetryable e then 1 else 0) }

theorem sendLoopRunM_append (n : Nat) :
    ∀ (events : List SendEventM) (s : SendLoopState),
      (sendLoopRunM n s events).2.dispatched ++
          (sendLoopRunM n s events).2.orderedClients =
        s.dispatched ++ s.orderedClients := by
  intro events
  induction events with
  | nil => intro s; rfl
  | cons ev evs ih =>
    intro s
    have hstep := sendLoopStepM_append n s ev
    rcases h : sendLoopStepM n s ev with ⟨od, s1⟩
    rw [h] at hstep
    cases od with
    | none => simp only [sendLoopRunM, h]; rw [ih s1]; exact hstep
    | some d => simpa [sendLoopRunM, h] using hstep

/-! ## Claim theorems -/

/-- C2: after a range-not-found or range-key-mismatch error, `sendChunk`
evicts the descriptor, resets the backoff so the retry is immediate, and
enables `considerIntents` for the descriptor lookups of the retry — under
which the (spec-modelled) randomized lookup consults uncommitted intent
values for exactly one of the two equally likely coin outcomes, so there are
retries that consider intents and retries that do not. -/
theorem sendChunk_addressing_error_immediate_retry_with_intents
    (s : RetryState) (desc : RangeDescriptorM) :
    (∃ s1, chunkErrorStep s desc .rangeNotFound = .continueRetry s1 ∧
      s1.evictCount = s.evictCount + 1 ∧ s1.resetCount = s.resetCount + 1 ∧
      s1.considerIntents = true) ∧
    (∃ s2, chunkErrorStep s desc .rangeKeyMismatch = .continueRetry s2 ∧
      s2.evictCount = s.evictCount + 1 ∧ s2.resetCount = s.resetCount + 1 ∧
      s2.considerIntents = true) ∧
    (List.filter (fun coin => lookupConsidersIntents true coin) [true, false]).length
      = 1 ∧
    lookupConsidersIntents true true = true ∧
    lookupConsidersIntents true false = false := by
  refine ⟨⟨_, rfl, rfl, rfl, rfl⟩, ⟨_, rfl, rfl, rfl, rfl⟩, by decide, rfl, rfl⟩

/-- C3 counterexample: a not-the-leader error whose reported leader (store 2)
is absent from the descriptor's replica set (only store 1).  The descriptor
is evicted and the backoff reset, as claimed — but the leader cache for the
range now holds the *reported* leader, not the zero/unknown value the claim
says is left behind. -/
theorem sendChunk_notLeader_absent_keeps_reported_leader_cex :
    chunkErrorStep ⟨false, [], 0, 0⟩ ⟨1, 0, 10, [⟨1, 1, 1⟩]⟩
        (.notLeader (some ⟨2, 2, 2⟩)) =
      .continueRetry ⟨false, [(1, ⟨2, 2, 2⟩)], 1, 1⟩ ∧
    lcLookup [(1, (⟨2, 2, 2⟩ : ReplicaDescriptor))] 1 ≠ zeroReplicaDescriptor := by
  decide

/-- C3 amended: on a not-the-leader error, if the reported leader's store is
in the descriptor's replica set, the descriptor is not evicted, the backoff
is reset, and the cached leader for the range carries the reported store; if
it is absent, the descriptor is evicted, the backoff reset, and the cached
leader still carries the *reported* store (it is not cleared); only when the
reported leader is unknown is the descriptor evicted and the cached leader
cleared to the zero/unknown store. -/
theorem sendChunk_notLeader_cache_update (s : RetryState) (desc : RangeDescriptorM)
    (l : ReplicaDescriptor) :
    (findReplicaIdx desc.replicas l.storeID ≠ -1 →
      ∃ s1, chunkErrorStep s desc (.notLeader (some l)) = .continueRetry s1 ∧
        s1.evictCount = s.evictCount ∧ s1.resetCount = s.resetCount + 1 ∧
        (lcLookup s1.leaderCache desc.rangeID).storeID = l.storeID) ∧
    (findReplicaIdx desc.replicas l.storeID = -1 →
      ∃ s2, chunkErrorStep s desc (.notLeader (some l)) = .continueRetry s2 ∧
        s2.evictCount = s.evictCount + 1 ∧ s2.resetCount = s.resetCount + 1 ∧
        (lcLookup s2.leaderCache desc.rangeID).storeID = l.storeID) ∧
    (∃ s3, chunkErrorStep s desc (.notLeader none) = .continueRetry s3 ∧
      s3.evictCount = s.evictCount + 1 ∧ s3.resetCount = s.resetCount + 1 ∧
      (lcLookup s3.leaderCache desc.rangeID).storeID = 0) := by
  refine ⟨fun h => ?_, fun h => ?_, ?_⟩
  · refine ⟨{ s with
        leaderCache := updateLeaderCacheM s.leaderCache desc.rangeID l,
        resetCount := s.resetCount + 1 },
      ?_, rfl, rfl, updateLeaderCacheM_storeID _ _ _⟩
    simp [chunkErrorStep, h]
  · refine ⟨{ s with
        evictCount := s.evictCount + 1,
        leaderCache := updateLeaderCacheM s.leaderCache desc.rangeID l,
        resetCount := s.resetCount + 1 },
      ?_, rfl, rfl, updateLeaderCacheM_storeID _ _ _⟩
    simp [chunkErrorStep, h]
  · refine ⟨{ s with
        evictCount := s.evictCount + 1,
        leaderCache := updateLeaderCacheM s.leaderCache desc.rangeID
          zeroReplicaDescriptor,
        resetCount := s.resetCount + 1 },
      ?_, rfl, rfl, ?_⟩
    · simp [chunkErrorStep]
    · simpa using
        updateLeaderCacheM_storeID s.leaderCache desc.rangeID zeroReplicaDescriptor

/-- C3 amended, witness: the absent-leader branch at the counterexample's
input. -/
theorem sendChunk_notLeader_cache_update_witness :
    findReplicaIdx ((⟨1, 0, 10, [⟨1, 1, 1⟩]⟩ : RangeDescriptorM)).replicas
        ((⟨2, 2, 2⟩ : ReplicaDescriptor)).storeID = -1 ∧
    (∃ s2, chunkErrorStep ⟨false, [], 0, 0⟩ ⟨1, 0, 10, [⟨1, 1, 1⟩]⟩
        (.notLeader (some ⟨2, 2, 2⟩)) = .continueRetry s2 ∧
      s2.evictCount = 0 + 1 ∧ s2.resetCount = 0 + 1 ∧
      (lcLookup s2.leaderCache 1).storeID = 2) :=
  ⟨by decide,
   (sendChunk_notLeader_cache_update ⟨false, [], 0, 0⟩ ⟨1, 0, 10, [⟨1, 1, 1⟩]⟩
     ⟨2, 2, 2⟩).2.1 (by decide)⟩

/-- C8: the multi-replica `send` called with no replicas returns the
non-retryable insufficient-replicas error at once: no connection is dialed,
no replica dispatched, the completion loop never runs. -/
theorem send_no_replicas_insufficient (dialOk : ReplicaDescriptor → Bool)
    (shuffle : List ReplicaDescriptor → List ReplicaDescriptor) (useShuffle : Bool)
    (events : List SendEventM) :
    sendM [] dialOk shuffle useShuffle events =
      { result := .insufficientReplicas false, dials := 0,
        finalState := ⟨[], [], 0, 0⟩ } := by
  simp [sendM]

/-- C5: when an error completion raises the failure count to the point that
fewer than one non-errored attempt remains, `send` returns the aggregate
too-many-errors send error, and its retryable flag is true exactly when at
least one recorded failure was classified retryable (a disconnect /
unexpected-EOF or a self-reported retryable error) or at least one
not-yet-failed replica remains. -/
theorem send_too_many_errors_aggregate (n : Nat) (s : SendLoopState) (e : RpcErrM)
    (hle : s.errCount + 1 ≤ n)
    (hall : (n : Int) - ((s.errCount + 1 : Nat) : Int) < 1) :
    (sendLoopStepM n s (.completion (some e))).1 =
      some (.tooManyErrors
        (decide (1 ≤ s.retryableErrCount + (if rpcErrRetryable e then 1 else 0)))) ∧
    ((1 ≤ s.retryableErrCount + (if rpcErrRetryable e then 1 else 0)) ↔
      (1 ≤ s.retryableErrCount + (if rpcErrRetryable e then 1 else 0) ∨
       s.errCount + 1 < n)) := by
  have hn : s.errCount + 1 = n := by omega
  constructor
  · simp only [sendLoopStepM]
    split
    · refine congrArg some (congrArg SendDoneM.tooManyErrors ?_)
      rw [decide_eq_decide]
      cases hre : rpcErrRetryable e <;> simp [hre] <;> omega
    · rename_i hcond
      exfalso
      apply hcond
      push_cast
      omega
  · have h2 : ¬ (s.errCount + 1 < n) := by omega
    tauto

/-- C5, witness: two replicas, both failed (one retryable), final error
completion. -/
theorem send_too_many_errors_aggregate_witness :
    (1 + 1 ≤ 2) ∧
    ((sendLoopStepM 2 ⟨[], [⟨1, 1, 1⟩, ⟨2, 2, 2⟩], 1, 1⟩
        (.completion (some .plainErr))).1 =
      some (.tooManyErrors
        (decide (1 ≤ 1 + (if rpcErrRetryable .plainErr then 1 else 0)))) ∧
      ((1 ≤ 1 + (if rpcErrRetryable .plainErr then 1 else 0)) ↔
        (1 ≤ 1 + (if rpcErrRetryable .plainErr then 1 else 0) ∨ 1 + 1 < 2))) :=
  ⟨by decide,
   send_too_many_errors_aggregate 2 ⟨[], [⟨1, 1, 1⟩, ⟨2, 2, 2⟩], 1, 1⟩ .plainErr
     (by decide) (by decide)⟩

/-- C10: throughout one `send` call each replica is dispatched at most once:
every dispatch removes the head of the remaining ordered client list and no
client is ever re-added, so the number of RPC attempts (dispatches) never
exceeds the number of replicas; distinct replicas are never dispatched
twice; and the send-next timer firing with no clients remaining dispatches
nothing and records no error (the state is unchanged). -/
theorem send_each_replica_dispatched_at_most_once
    (replicas : List ReplicaDescriptor) (dialOk : ReplicaDescriptor → Bool)
    (shuffle : List ReplicaDescriptor → List ReplicaDescriptor) (useShuffle : Bool)
    (events : List SendEventM) (hperm : ∀ l, (shuffle l).Perm l) :
    (sendM replicas dialOk shuffle useShuffle events).finalState.dispatched.length ≤
        replicas.length ∧
    (replicas.Nodup →
      (sendM replicas dialOk shuffle useShuffle events).finalState.dispatched.Nodup) ∧
    (∀ n s, s.orderedClients = [] → sendLoopStepM n s .timerFires = (none, s)) := by
  have htimer : ∀ (n : Nat) (s : SendLoopState), s.orderedClients = [] →
      sendLoopStepM n s .timerFires = (none, s) := by
    intro n s h
    simp [sendLoopStepM, dispatchNext, h]
  cases replicas with
  | nil => exact ⟨by simp [sendM], fun _ => by simp [sendM], htimer⟩
  | cons r rs =>
    have hlen : ¬ ((r :: rs).length < 1) := by simp
    rcases hd : dialAll dialOk (r :: rs) with ⟨co, k⟩
    cases co with
    | none =>
      refine ⟨?_, fun _ => ?_, htimer⟩ <;> simp [sendM, hlen, hd]
    | some clients =>
      have hcs : clients = r :: rs := dialAll_ok_eq dialOk _ _ _ hd
      have hperm2 : (if useShuffle then shuffle clients else clients).Perm clients := by
        cases useShuffle
        · simp
        · simpa using hperm clients
      cases ho : (if useShuffle then shuffle clients else clients) with
      | nil =>
        refine ⟨?_, fun _ => ?_, htimer⟩ <;> simp [sendM, hlen, hd, ho]
      | cons c rest =>
        have hres : (sendM (r :: rs) dialOk shuffle useShuffle events).finalState =
            (sendLoopRunM (r :: rs).length ⟨rest, [c], 0, 0⟩ events).2 := by
          simp [sendM, hlen, hd, ho]
        have happ := sendLoopRunM_append (r :: rs).length events ⟨rest, [c], 0, 0⟩
        rw [ho] at hperm2
        have hlen2 : (c :: rest).length = (r :: rs).length := by
          rw [hperm2.length_eq, hcs]
        refine ⟨?_, fun hnd => ?_, htimer⟩
        · rw [hres]
          have := congrArg List.length happ
          simp only [List.length_append, List.length_cons, List.length_nil]
            at this hlen2 ⊢
          omega
        · rw [hres]
          have hnd2 : (c :: rest).Nodup := by
            rw [hperm2.nodup_iff, hcs]
            exact hnd
          have hnd3 : ((sendLoopRunM (r :: rs).length ⟨rest, [c], 0, 0⟩ events).2.dispatched ++
              (sendLoopRunM (r :: rs).length ⟨rest, [c], 0, 0⟩ events).2.orderedClients).Nodup := by
            rw [happ]
            simpa using hnd2
          exact (List.nodup_append.mp hnd3).1

/-- C10, witness: two distinct replicas, a timer fire and two error
completions. -/
theorem send_each_replica_dispatched_at_most_once_witness :
    (∀ l, (id l : List ReplicaDescriptor).Perm l) ∧
    ((sendM [⟨1, 1, 1⟩, ⟨2, 2, 2⟩] (fun _ => true) id true
        [.timerFires, .completion (some .plainErr)]).finalState.dispatched.length ≤
      ([⟨1, 1, 1⟩, ⟨2, 2, 2⟩] : List ReplicaDescriptor).length ∧
    (([⟨1, 1, 1⟩, ⟨2, 2, 2⟩] : List ReplicaDescriptor).Nodup →
      (sendM [⟨1, 1, 1⟩, ⟨2, 2, 2⟩] (fun _ => true) id true
        [.timerFires, .completion (some .plainErr)]).finalState.dispatched.Nodup) ∧
    (∀ n s, s.orderedClients = [] → sendLoopStepM n s .timerFires = (none, s))) :=
  ⟨fun l => List.Perm.refl l,
   send_each_replica_dispatched_at_most_once [⟨1, 1, 1⟩, ⟨2, 2, 2⟩] (fun _ => true)
     id true [.timerFires, .completion (some .plainErr)] (fun l => List.Perm.refl l)⟩

/-- C4 amended: for a batch with no transaction that *could be part of a
transaction*, with required read consistency, whose span extends beyond the
first resolved range, the first `sendChunk` iteration returns the
non-retryable requires-transaction error instead of dispatching any RPC. -/
theorem sendChunk_requires_txn (ba : ChunkBatchM) (rs : RSpanM) (isReverse : Bool)
    (desc : RangeDescriptorM) (b : Bool)
    (hTxn : ba.hasTxn = false)
    (hPoss : isPossibleTransaction ba.requests = true)
    (hCons : ba.readConsistency ≠ .inconsistent)
    (hNeed : chunkNeedAnother rs desc isReverse = true) :
    chunkIterPreDispatch ba rs isReverse true (some desc) b =
      .abort .opRequiresTxn false ∧
    chunkErrRetryable .opRequiresTxn = false ∧
    (∀ tr n, chunkIterPreDispatch ba rs isReverse true (some desc) b ≠
      .dispatch tr n) := by
  have hC : (ba.readConsistency == ReadConsistencyM.inconsistent) = false := by
    cases h : ba.readConsistency
    · rfl
    · exact absurd h hCons
  have heq : chunkIterPreDispatch ba rs isReverse true (some desc) b =
      .abort .opRequiresTxn false := by
    simp [chunkIterPreDispatch, hNeed, hTxn, hPoss, hC]
  refine ⟨heq, rfl, fun tr n hcontra => ?_⟩
  rw [heq] at hcontra
  exact IterOutcome.noConfusion hcontra

/-- C4 amended, witness: a consistent transaction-less scan over `[0, 10)`
against a first descriptor covering only `[0, 5)`. -/
theorem sendChunk_requires_txn_witness :
    ((⟨[.scan 0 10 0], false, .consistent⟩ : ChunkBatchM)).hasTxn = false ∧
    isPossibleTransaction [.scan 0 10 0] = true ∧
    ((⟨[.scan 0 10 0], false, .consistent⟩ : ChunkBatchM)).readConsistency ≠
      .inconsistent ∧
    chunkNeedAnother ⟨0, 10⟩ ⟨1, 0, 5, [⟨1, 1, 1⟩]⟩ false = true ∧
    (chunkIterPreDispatch ⟨[.scan 0 10 0], false, .consistent⟩ ⟨0, 10⟩ false true
        (some ⟨1, 0, 5, [⟨1, 1, 1⟩]⟩) false = .abort .opRequiresTxn false ∧
      chunkErrRetryable .opRequiresTxn = false ∧
      (∀ tr n, chunkIterPreDispatch ⟨[.scan 0 10 0], false, .consistent⟩ ⟨0, 10⟩
        false true (some ⟨1, 0, 5, [⟨1, 1, 1⟩]⟩) false ≠ .dispatch tr n)) :=
  ⟨rfl, rfl, by decide, by decide,
   sendChunk_requires_txn ⟨[.scan 0 10 0], false, .consistent⟩ ⟨0, 10⟩ false
     ⟨1, 0, 5, [⟨1, 1, 1⟩]⟩ false rfl rfl (by decide) (by decide)⟩

/-- C4 counterexample: the same situation — no transaction, required read
consistency, span `[0, 10)` beyond the first range `[0, 5)` — but the batch
consists of a request that cannot be part of a transaction (e.g. a range
lookup), so `ba.IsPossibleTransaction()` is false: `sendChunk` does *not*
return the requires-transaction error and instead dispatches an RPC for the
truncated sub-batch. -/
theorem sendChunk_requires_txn_cex :
    chunkIterPreDispatch ⟨[.nonTxnRanged 0 10], false, .consistent⟩ ⟨0, 10⟩ false
        true (some ⟨1, 0, 5, [⟨1, 1, 1⟩]⟩) false =
      .dispatch [.nonTxnRanged 0 5] 1 ∧
    chunkNeedAnother ⟨0, 10⟩ ⟨1, 0, 5, [⟨1, 1, 1⟩]⟩ false = true ∧
    chunkIterPreDispatch ⟨[.nonTxnRanged 0 10], false, .consistent⟩ ⟨0, 10⟩ false
        true (some ⟨1, 0, 5, [⟨1, 1, 1⟩]⟩) false ≠ .abort .opRequiresTxn false := by
  decide

theorem findReplicaByNodeID_nonneg_get (nid : Nat) :
    ∀ rs : List ReplicaM, 0 ≤ findReplicaByNodeID rs nid →
      ∃ r, rs.get? (findReplicaByNodeID rs nid).toNat = some r ∧ r.nodeID = nid := by
  intro rs
  induction rs with
  | nil => intro h; simp [findReplicaByNodeID] at h
  | cons r rest ih =>
    intro h
    by_cases hr : r.nodeID = nid
    · refine ⟨r, ?_, hr⟩
      simp [findReplicaByNodeID, hr]
    · rcases hlt : findReplicaByNodeID rest nid with i | i
      · -- nonnegative index in the tail
        have h0 : 0 ≤ findReplicaByNodeID rest nid := by rw [hlt]; exact Int.ofNat_nonneg i
        obtain ⟨r2, hg, hn⟩ := ih h0
        refine ⟨r2, ?_, hn⟩
        have hni : ¬ (findReplicaByNodeID rest nid < 0) := by omega
        simp only [findReplicaByNodeID, hr, if_false, hni]
        rw [hlt] at hg ⊢
        simpa [Int.toNat_ofNat] using hg
      · -- tail lookup failed: the whole lookup is -1, contradicting h
        exfalso
        have : findReplicaByNodeID (r :: rest) nid = -1 := by
          have hni : findReplicaByNodeID rest nid < 0 := by
            rw [hlt]; exact Int.negSucc_lt_zero i
          simp [findReplicaByNodeID, hr, hni]
        omega

theorem findReplicaByNodeID_zero_head (r : ReplicaM) (rest : List ReplicaM) (nid : Nat)
    (h : findReplicaByNodeID (r :: rest) nid = 0) : r.nodeID = nid := by
  by_cases hr : r.nodeID = nid
  · exact hr
  · exfalso
    rcases hlt : findReplicaByNodeID rest nid with i | i
    · have : findReplicaByNodeID (r :: rest) nid = i + 1 := by
        have hni : ¬ ((Int.ofNat i : Int) < 0) := not_lt.mpr (Int.ofNat_nonneg i)
        simp [findReplicaByNodeID, hr, hlt, hni]
      omega
    · have : findReplicaByNodeID (r :: rest) nid = -1 := by
        have hni : (Int.negSucc i : Int) < 0 := Int.negSucc_lt_zero i
        simp [findReplicaByNodeID, hr, hlt, hni]
      omega

theorem moveToFront_head (rs : List ReplicaM) (n : Nat) (l : ReplicaM)
    (h : rs.get? n = some l) : (moveToFront rs n).head? = some l := by
  rw [List.get?_eq_getElem?] at h
  simp [moveToFront, h]

/-- C9 counterexample: the local node (node 1, no attributes) has a replica
at the front of the slice already, and no attribute prefix matches — the
slice is returned unchanged but the ordering policy stays *randomized*, not
the stable one the claim requires. -/
theorem optimizeReplicaOrder_local_random_cex :
    optimizeReplicaOrderM (some ⟨1, []⟩) [⟨1, 1, []⟩, ⟨2, 2, []⟩] =
      ([⟨1, 1, []⟩, ⟨2, 2, []⟩], .orderRandom) ∧
    (∃ r ∈ ([⟨1, 1, []⟩, ⟨2, 2, []⟩] : List ReplicaM), r.nodeID = 1) ∧
    OrderingPolicyM.orderRandom ≠ .orderStable := by
  decide

/-- C9 amended: when the local node is known and a local replica exists
(`FindReplicaByNodeID` succeeds on the attribute-sorted slice), the local
replica ends up at the front — but the returned policy is the stable one
exactly when the local replica was found at a *positive* index or some
attribute prefix matched; a local replica already at the front with no
attribute match leaves the randomized policy. -/
theorem optimizeReplicaOrder_local_front (nd : NodeDescM) (replicas : List ReplicaM)
    (h : 0 ≤ findReplicaByNodeID (sortByCommonAttributePrefix nd.attrs replicas).1
      nd.nodeID) :
    ((optimizeReplicaOrderM (some nd) replicas).1.head?.map (fun r => r.nodeID)) =
      some nd.nodeID ∧
    ((optimizeReplicaOrderM (some nd) replicas).2 = .orderStable ↔
      (0 < findReplicaByNodeID (sortByCommonAttributePrefix nd.attrs replicas).1
          nd.nodeID ∨
       0 < (sortByCommonAttributePrefix nd.attrs replicas).2)) := by
  by_cases hpos :
      0 < findReplicaByNodeID (sortByCommonAttributePrefix nd.attrs replicas).1 nd.nodeID
  · obtain ⟨r, hg, hn⟩ := findReplicaByNodeID_nonneg_get nd.nodeID
      (sortByCommonAttributePrefix nd.attrs replicas).1 h
    constructor
    · simp only [optimizeReplicaOrderM, hpos, if_true]
      rw [moveToFront_head _ _ _ hg]
      simp [hn]
    · simp only [optimizeReplicaOrderM, hpos, if_true]
      simp [hpos]
  · have hz : findReplicaByNodeID (sortByCommonAttributePrefix nd.attrs replicas).1
        nd.nodeID = 0 := by omega
    cases hsl : (sortByCommonAttributePrefix nd.attrs replicas).1 with
    | nil => rw [hsl] at hz; simp [findReplicaByNodeID] at hz
    | cons c crest =>
      have hcn : c.nodeID = nd.nodeID := by
        apply findReplicaByNodeID_zero_head c crest nd.nodeID
        rw [← hsl]; exact hz
      constructor
      · simp only [optimizeReplicaOrderM]
        rw [if_neg hpos]
        simp [hsl, hcn]
      · simp only [optimizeReplicaOrderM]
        rw [if_neg hpos]
        by_cases hp : 0 < (sortByCommonAttributePrefix nd.attrs replicas).2
        · simp [hp]
        · simp [hp, hpos]
          rw [← hsl]
          omega

/-- C9 amended, witness: the local replica (node 1) sits at index 1 of the
slice, so it is moved to the front and the policy is stable. -/
theorem optimizeReplicaOrder_local_front_witness :
    (0 ≤ findReplicaByNodeID
      (sortByCommonAttributePrefix ((⟨1, []⟩ : NodeDescM)).attrs
        [⟨2, 2, []⟩, ⟨1, 1, []⟩]).1 ((⟨1, []⟩ : NodeDescM)).nodeID) ∧
    (((optimizeReplicaOrderM (some ⟨1, []⟩) [⟨2, 2, []⟩, ⟨1, 1, []⟩]).1.head?.map
        (fun r => r.nodeID)) = some ((⟨1, []⟩ : NodeDescM)).nodeID ∧
      ((optimizeReplicaOrderM (some ⟨1, []⟩) [⟨2, 2, []⟩, ⟨1, 1, []⟩]).2 =
          .orderStable ↔
        (0 < findReplicaByNodeID
          (sortByCommonAttributePrefix ((⟨1, []⟩ : NodeDescM)).attrs
            [⟨2, 2, []⟩, ⟨1, 1, []⟩]).1 ((⟨1, []⟩ : NodeDescM)).nodeID ∨
         0 < (sortByCommonAttributePrefix ((⟨1, []⟩ : NodeDescM)).attrs
            [⟨2, 2, []⟩, ⟨1, 1, []⟩]).2))) :=
  ⟨by decide, optimizeReplicaOrder_local_front ⟨1, []⟩ [⟨2, 2, []⟩, ⟨1, 1, []⟩]
    (by decide)⟩

theorem scanFlagsLoop_none_of_nonscan :
    ∀ (reqs : List RequestM) (f v : Bool),
      (∃ r ∈ reqs, isScanKind r = false) → scanFlagsLoop f v reqs = none := by
  intro reqs
  induction reqs with
  | nil => intro f v h; obtain ⟨r, hr, -⟩ := h; simp at hr
  | cons r rest ih =>
    intro f v h
    cases r with
    | scan k ek b =>
      obtain ⟨r2, hr2, hk⟩ := h
      rcases List.mem_cons.mp hr2 with h0 | h0
      · subst h0; simp [isScanKind, isFwdScan] at hk
      · exact ih true v ⟨r2, h0, hk⟩
    | revScan k ek b =>
      obtain ⟨r2, hr2, hk⟩ := h
      rcases List.mem_cons.mp hr2 with h0 | h0
      · subst h0; simp [isScanKind, isRevScan] at hk
      · exact ih f true ⟨r2, h0, hk⟩
    | endTxn k => rfl
    | nonTxnRanged k ek => rfl
    | noop => rfl

theorem scanFlagsLoop_flags :
    ∀ (reqs : List RequestM) (f v : Bool) (p : Bool × Bool),
      scanFlagsLoop f v reqs = some p →
      p.1 = (f || reqs.any isFwdScan) ∧ p.2 = (v || reqs.any isRevScan) := by
  intro reqs
  induction reqs with
  | nil =>
    intro f v p h
    simp only [scanFlagsLoop, Option.some.injEq] at h
    subst h
    simp
  | cons r rest ih =>
    intro f v p h
    cases r with
    | scan k ek b =>
      have := ih true v p h
      simp only [List.any_cons, isFwdScan, isRevScan] at this ⊢
      obtain ⟨h1, h2⟩ := this
      exact ⟨by rw [h1]; simp, by rw [h2]; simp⟩
    | revScan k ek b =>
      have := ih f true p h
      simp only [List.any_cons, isFwdScan, isRevScan] at this ⊢
      obtain ⟨h1, h2⟩ := this
      exact ⟨by rw [h1]; simp, by rw [h2]; simp⟩
    | endTxn k => simp [scanFlagsLoop] at h
    | nonTxnRanged k ek => simp [scanFlagsLoop] at h
    | noop => simp [scanFlagsLoop] at h

/-- C6: a batch carrying a non-zero `MaxScanResults` bound that contains a
request which is neither a forward nor a reverse scan, or that mixes the two
scan directions, makes `Send` fail fast with a non-retryable usage error —
zero `sendChunk` calls, hence no range resolution and no RPC dispatch. -/
theorem Send_limit_admissibility_fail_fast (reqs : List RequestM)
    (maxScanResults : Int) (parts : Nat) (outcomes : List ChunkOutcome)
    (hmax : maxScanResults ≠ 0) (hne : 0 < reqs.length)
    (hbad : (∃ r ∈ reqs, isScanKind r = false) ∨
      ((∃ r ∈ reqs, isFwdScan r = true) ∧ (∃ r ∈ reqs, isRevScan r = true))) :
    ∃ e, SendDS reqs maxScanResults parts outcomes = (.err e, 0) ∧
      sendErrRetryable e = false ∧
      (e = .nonScanWithLimit ∨ e = .mixedScanDirections) := by
  have hlen : ¬ (reqs.length < 1) := by omega
  have hchk : ∃ e, maxScanCheck maxScanResults reqs = some e ∧
      (e = SendErrM.nonScanWithLimit ∨ e = SendErrM.mixedScanDirections) := by
    rcases hbad with hns | ⟨hf, hv⟩
    · refine ⟨.nonScanWithLimit, ?_, Or.inl rfl⟩
      simp only [maxScanCheck]
      rw [scanFlagsLoop_none_of_nonscan reqs false false hns, if_pos hmax]
    · cases hsf : scanFlagsLoop false false reqs with
      | none =>
        refine ⟨.nonScanWithLimit, ?_, Or.inl rfl⟩
        simp only [maxScanCheck, hsf]
        rw [if_pos hmax]
      | some p =>
        obtain ⟨h1, h2⟩ := scanFlagsLoop_flags reqs false false p hsf
        have hp1 : p.1 = true := by
          rw [h1]; simp only [Bool.false_or, List.any_eq_true]
          obtain ⟨r, hr, hv2⟩ := hf
          exact ⟨r, hr, hv2⟩
        have hp2 : p.2 = true := by
          rw [h2]; simp only [Bool.false_or, List.any_eq_true]
          obtain ⟨r, hr, hv2⟩ := hv
          exact ⟨r, hr, hv2⟩
        refine ⟨.mixedScanDirections, ?_, Or.inr rfl⟩
        simp only [maxScanCheck, hsf]
        rw [if_pos hmax]
        simp [hp1, hp2]
  obtain ⟨e, he, hek⟩ := hchk
  refine ⟨e, ?_, ?_, hek⟩
  · simp only [SendDS]
    rw [if_neg hlen, he]
  · rcases hek with h0 | h0 <;> rw [h0] <;> rfl

/-- C6, witness: a limited batch mixing a forward and a reverse scan. -/
theorem Send_limit_admissibility_fail_fast_witness :
    ((5 : Int) ≠ 0) ∧
    (0 < ([RequestM.scan 0 5 0, RequestM.revScan 0 5 0] : List RequestM).length) ∧
    ((∃ r ∈ ([RequestM.scan 0 5 0, RequestM.revScan 0 5 0] : List RequestM),
        isScanKind r = false) ∨
      ((∃ r ∈ ([RequestM.scan 0 5 0, RequestM.revScan 0 5 0] : List RequestM),
          isFwdScan r = true) ∧
       (∃ r ∈ ([RequestM.scan 0 5 0, RequestM.revScan 0 5 0] : List RequestM),
          isRevScan r = true))) ∧
    (∃ e, SendDS [RequestM.scan 0 5 0, RequestM.revScan 0 5 0] 5 1 [] =
        (.err e, 0) ∧ sendErrRetryable e = false ∧
      (e = .nonScanWithLimit ∨ e = .mixedScanDirections)) :=
  ⟨by decide, by decide, by decide,
   Send_limit_admissibility_fail_fast [RequestM.scan 0 5 0, RequestM.revScan 0 5 0]
     5 1 [] (by decide) (by decide) (by decide)⟩

theorem combineChunks_foldl_fields :
    ∀ (rest : List BatchResponseM) (acc : BatchResponseM),
      (rest.foldl (fun acc2 rpl =>
        { acc2 with responses := acc2.responses ++ rpl.responses,
                    collectedSpans := acc2.collectedSpans ++ rpl.collectedSpans })
        acc).responses =
          acc.responses ++ (rest.map (fun r => r.responses)).flatten ∧
      (rest.foldl (fun acc2 rpl =>
        { acc2 with responses := acc2.responses ++ rpl.responses,
                    collectedSpans := acc2.collectedSpans ++ rpl.collectedSpans })
        acc).collectedSpans =
          acc.collectedSpans ++ (rest.map (fun r => r.collectedSpans)).flatten := by
  intro rest
  induction rest with
  | nil => intro acc; simp
  | cons x xs ih =>
    intro acc
    obtain ⟨h1, h2⟩ := ih { acc with
      responses := acc.responses ++ x.responses,
      collectedSpans := acc.collectedSpans ++ x.collectedSpans }
    constructor
    · simp only [List.foldl_cons, h1, List.map_cons, List.flatten_cons,
        List.append_assoc]
    · simp only [List.foldl_cons, h2, List.map_cons, List.flatten_cons,
        List.append_assoc]

theorem combineChunks_fields (first : BatchResponseM) (rest : List BatchResponseM) :
    (combineChunks first rest).responses =
      ((first :: rest).map (fun r => r.responses)).flatten ∧
    (combineChunks first rest).collectedSpans =
      ((first :: rest).map (fun r => r.collectedSpans)).flatten ∧
    (combineChunks first rest).header = (rest.getLastD first).header := by
  obtain ⟨h1, h2⟩ := combineChunks_foldl_fields rest first
  exact ⟨by simpa using h1, by simpa using h2, rfl⟩

theorem getLastD_eq_getLast_cons :
    ∀ (rest : List BatchResponseM) (f : BatchResponseM),
      rest.getLastD f = (f :: rest).getLast (by simp) := by
  intro rest
  induction rest with
  | nil => intro f; rfl
  | cons x xs ih =>
    intro f
    rw [List.getLastD_cons, ih x]
    exact (List.getLast_cons (by simp)).symm

theorem sendPartsLoop_all_ok :
    ∀ (rpls acc : List BatchResponseM) (f : BatchResponseM)
      (rest : List BatchResponseM), acc = f :: rest →
      sendPartsLoop rpls.length acc (rpls.map ChunkOutcome.ok) =
        (.ok (combineChunks f (rest ++ rpls)), rpls.length) := by
  intro rpls
  induction rpls with
  | nil =>
    intro acc f rest h
    subst h
    simp [sendPartsLoop]
  | cons rpl rpls' ih =>
    intro acc f rest h
    subst h
    have := ih ((f :: rest) ++ [rpl]) f (rest ++ [rpl]) (by simp)
    simp only [List.length_cons, List.map_cons, sendPartsLoop, this]
    rw [List.append_assoc]
    simp

/-- C7: when `Send` executes a batch as several parts, all of whose
`sendChunk` calls succeed, the returned response's per-request results are
the concatenation of the per-part responses in part order (likewise the
collected spans), and its header is the header of the *last* part's
response. -/
theorem Send_concatenates_parts_last_header (reqs : List RequestM)
    (f : BatchResponseM) (rest : List BatchResponseM) (hne : 0 < reqs.length) :
    SendDS reqs 0 (f :: rest).length ((f :: rest).map ChunkOutcome.ok) =
      (.ok { header := ((f :: rest).getLast (by simp)).header,
             responses := ((f :: rest).map (fun r => r.responses)).flatten,
             collectedSpans :=
               ((f :: rest).map (fun r => r.collectedSpans)).flatten },
       (f :: rest).length) := by
  have hlen : ¬ (reqs.length < 1) := by omega
  have hchk : maxScanCheck 0 reqs = none := by simp [maxScanCheck]
  have hcc : combineChunks f rest =
      { header := ((f :: rest).getLast (by simp)).header,
        responses := ((f :: rest).map (fun r => r.responses)).flatten,
        collectedSpans := ((f :: rest).map (fun r => r.collectedSpans)).flatten } := by
    obtain ⟨h1, h2, h3⟩ := combineChunks_fields f rest
    have heta : combineChunks f rest =
        { header := (combineChunks f rest).header,
          responses := (combineChunks f rest).responses,
          collectedSpans := (combineChunks f rest).collectedSpans } := rfl
    rw [heta, h1, h2, h3, getLastD_eq_getLast_cons]
  have hloop : sendPartsLoop (f :: rest).length [] ((f :: rest).map ChunkOutcome.ok) =
      (.ok (combineChunks f rest), (f :: rest).length) := by
    have hstep := sendPartsLoop_all_ok rest [f] f [] rfl
    simp only [List.length_cons, List.map_cons, sendPartsLoop]
    rw [List.nil_append] at hstep ⊢
    rw [hstep]
  simp only [SendDS]
  rw [if_neg hlen, hchk]
  have hguard : ¬ (1 < (f :: rest).length ∧ (0 : Int) ≠ 0) := by simp
  rw [if_neg hguard, hloop, hcc]

/-- C7, witness: two parts with distinct headers, responses and spans. -/
theorem Send_concatenates_parts_last_header_witness :
    (0 < ([RequestM.scan 0 5 0] : List RequestM).length) ∧
    SendDS [RequestM.scan 0 5 0] 0
        ([⟨7, [.scanResp 1], [1]⟩, ⟨9, [.scanResp 2], [2]⟩] :
          List BatchResponseM).length
        (([⟨7, [.scanResp 1], [1]⟩, ⟨9, [.scanResp 2], [2]⟩] :
          List BatchResponseM).map ChunkOutcome.ok) =
      (.ok { header := ((([⟨7, [.scanResp 1], [1]⟩, ⟨9, [.scanResp 2], [2]⟩] :
                List BatchResponseM)).getLast (by simp)).header,
             responses := ((([⟨7, [.scanResp 1], [1]⟩, ⟨9, [.scanResp 2], [2]⟩] :
                List BatchResponseM)).map (fun r => r.responses)).flatten,
             collectedSpans := ((([⟨7, [.scanResp 1], [1]⟩,
                ⟨9, [.scanResp 2], [2]⟩] :
                List BatchResponseM)).map (fun r => r.collectedSpans)).flatten },
       ([⟨7, [.scanResp 1], [1]⟩, ⟨9, [.scanResp 2], [2]⟩] :
          List BatchResponseM).length) :=
  ⟨by decide,
   Send_concatenates_parts_last_header [RequestM.scan 0 5 0] ⟨7, [.scanResp 1], [1]⟩
     [⟨9, [.scanResp 2], [2]⟩] (by decide)⟩

theorem countSum_cons (x : RespM) (xs : List RespM) :
    countSum (x :: xs) = respCount x + countSum xs := by
  simp [countSum]

theorem combineResp_noop_left (y : RespM) : combineResp .noop y = some y := by
  cases y <;> rfl

theorem combineResp_count (x y z : RespM) (h : combineResp x y = some z) :
    respCount z = respCount x + respCount y := by
  cases x <;> cases y <;> simp [combineResp] at h <;> subst h <;>
    simp [respCount, respCountOpt]

theorem combineBatch_count :
    ∀ (b c br : List RespM), combineBatch b c = some br →
      countSum br = countSum b + countSum c := by
  intro b
  induction b with
  | nil =>
    intro c br h
    cases c with
    | cons y ys => simp [combineBatch] at h
    | nil =>
      simp only [combineBatch, Option.some.injEq] at h
      subst h
      simp [countSum]
  | cons x xs ih =>
    intro c br h
    cases c with
    | nil => simp [combineBatch] at h
    | cons y ys =>
      simp only [combineBatch] at h
      rcases hz : combineResp x y with _ | z
      · rw [hz] at h; simp at h
      · rcases hzs : combineBatch xs ys with _ | zs
        · rw [hz, hzs] at h; simp at h
        · rw [hz, hzs] at h
          simp only [Option.some.injEq] at h
          subst h
          rw [countSum_cons, countSum_cons, countSum_cons,
            combineResp_count x y z hz, ih ys zs hzs]
          omega

theorem combineBatch_noops_left :
    ∀ (os : List RequestM) (cur : List RespM), wellTyped os cur = true →
      combineBatch (os.map (fun _ => RespM.noop)) cur = some cur := by
  intro os
  induction os with
  | nil =>
    intro cur h
    cases cur with
    | nil => rfl
    | cons y ys => simp [wellTyped] at h
  | cons o os' ih =>
    intro cur h
    cases cur with
    | nil => simp [wellTyped] at h
    | cons y ys =>
      simp only [wellTyped, Bool.and_eq_true] at h
      simp only [List.map_cons, combineBatch, combineResp_noop_left, ih ys h.2]

theorem slotInv_noops :
    ∀ os : List RequestM, allScanOrRev os = true →
      slotInv os os (os.map (fun _ => RespM.noop)) = true := by
  intro os
  induction os with
  | nil => intro h; rfl
  | cons o os' ih =>
    intro h
    simp only [allScanOrRev, List.all_cons, Bool.and_eq_true] at h
    simp only [List.map_cons, slotInv, Bool.and_eq_true]
    refine ⟨?_, ih ?_⟩
    · cases o <;> simp_all [isScanKind, isFwdScan, isRevScan, slot1]
    · simpa [allScanOrRev] using h.2

theorem slot1_combine (o c : RequestM) (x y z : RespM)
    (h1 : slot1 o c x = true) (h2 : respKindOk o y = true)
    (h3 : combineResp x y = some z) : slot1 o c z = true := by
  cases o <;> cases c <;> cases x <;> cases y <;>
    simp_all [slot1, respKindOk, combineResp] <;>
    (try subst h3) <;> (first | rfl | simp [slot1])

theorem slot1_mask_combine (o c : RequestM) (x y z : RespM)
    (h1 : slot1 o c x = true) (h2 : respKindOk o y = true)
    (h3 : combineResp x y = some z) : slot1 o (maskOne c y).1 z = true := by
  cases o <;> cases c <;> cases x <;> cases y <;>
    simp_all [slot1, respKindOk, combineResp, maskOne, getBound, respCountOpt] <;>
    (try subst h3) <;> (try split_ifs) <;>
    (first | rfl | simp_all [slot1, setBound])

theorem slot1_replace (o c : RequestM) (x : RespM) (h : slot1 o c x = true) :
    ∃ z, replaceNoop1 c x = some z ∧ respCount z = respCount x ∧
      slotFilled o z = true := by
  cases o <;> cases c <;> cases x <;> simp [slot1] at h <;>
    exact ⟨_, rfl, rfl, rfl⟩

theorem filledTyped_cons (o : RequestM) (os : List RequestM) (z : RespM)
    (zs : List RespM) :
    filledTyped (o :: os) (z :: zs) = (slotFilled o z && filledTyped os zs) := by
  cases o <;> cases z <;> simp [filledTyped, slotFilled]

theorem slotInv_combine :
    ∀ (os cs : List RequestM) (b cur br : List RespM),
      slotInv os cs b = true → wellTyped os cur = true →
      combineBatch b cur = some br → slotInv os cs br = true := by
  intro os
  induction os with
  | nil =>
    intro cs b cur br h1 h2 h3
    cases cs with
    | cons c cs' => simp [slotInv] at h1
    | nil =>
      cases b with
      | cons x b' => simp [slotInv] at h1
      | nil =>
        cases cur with
        | cons y cur' => simp [wellTyped] at h2
        | nil =>
          simp only [combineBatch, Option.some.injEq] at h3
          subst h3
          rfl
  | cons o os' ih =>
    intro cs b cur br h1 h2 h3
    cases cs with
    | nil => simp [slotInv] at h1
    | cons c cs' =>
      cases b with
      | nil => simp [slotInv] at h1
      | cons x b' =>
        cases cur with
        | nil => simp [wellTyped] at h2
        | cons y cur' =>
          simp only [slotInv, Bool.and_eq_true] at h1
          simp only [wellTyped, Bool.and_eq_true] at h2
          simp only [combineBatch] at h3
          rcases hz : combineResp x y with _ | z
          · rw [hz] at h3; simp at h3
          · rcases hzs : combineBatch b' cur' with _ | zs
            · rw [hz, hzs] at h3; simp at h3
            · rw [hz, hzs] at h3
              simp only [Option.some.injEq] at h3
              subst h3
              simp only [slotInv, Bool.and_eq_true]
              exact ⟨slot1_combine o c x y z h1.1 h2.1 hz,
                ih cs' b' cur' zs h1.2 h2.2 hzs⟩

theorem slotInv_mask_combine :
    ∀ (os cs : List RequestM) (b cur br : List RespM),
      slotInv os cs b = true → wellTyped os cur = true →
      combineBatch b cur = some br →
      slotInv os (maskRequests cs cur).1 br = true := by
  intro os
  induction os with
  | nil =>
    intro cs b cur br h1 h2 h3
    cases cs with
    | cons c cs' => simp [slotInv] at h1
    | nil =>
      cases b with
      | cons x b' => simp [slotInv] at h1
      | nil =>
        cases cur with
        | cons y cur' => simp [wellTyped] at h2
        | nil =>
          simp only [combineBatch, Option.some.injEq] at h3
          subst h3
          rfl
  | cons o os' ih =>
    intro cs b cur br h1 h2 h3
    cases cs with
    | nil => simp [slotInv] at h1
    | cons c cs' =>
      cases b with
      | nil => simp [slotInv] at h1
      | cons x b' =>
        cases cur with
        | nil => simp [wellTyped] at h2
        | cons y cur' =>
          simp only [slotInv, Bool.and_eq_true] at h1
          simp only [wellTyped, Bool.and_eq_true] at h2
          simp only [combineBatch] at h3
          rcases hz : combineResp x y with _ | z
          · rw [hz] at h3; simp at h3
          · rcases hzs : combineBatch b' cur' with _ | zs
            · rw [hz, hzs] at h3; simp at h3
            · rw [hz, hzs] at h3
              simp only [Option.some.injEq] at h3
              subst h3
              simp only [maskRequests, slotInv, Bool.and_eq_true]
              exact ⟨slot1_mask_combine o c x y z h1.1 h2.1 hz,
                ih cs' b' cur' zs h1.2 h2.2 hzs⟩

theorem replaceNoops_spec :
    ∀ (os cs : List RequestM) (br : List RespM), slotInv os cs br = true →
      ∃ br2, replaceNoops cs br = some br2 ∧ filledTyped os br2 = true ∧
        countSum br2 = countSum br := by
  intro os
  induction os with
  | nil =>
    intro cs br h
    cases cs with
    | cons c cs' => simp [slotInv] at h
    | nil =>
      cases br with
      | cons x br' => simp [slotInv] at h
      | nil => exact ⟨[], rfl, rfl, rfl⟩
  | cons o os' ih =>
    intro cs br h
    cases cs with
    | nil => simp [slotInv] at h
    | cons c cs' =>
      cases br with
      | nil => simp [slotInv] at h
      | cons x br' =>
        simp only [slotInv, Bool.and_eq_true] at h
        obtain ⟨z, hz1, hz2, hz3⟩ := slot1_replace o c x h.1
        obtain ⟨zs, hs1, hs2, hs3⟩ := ih cs' br' h.2
        refine ⟨z :: zs, ?_, ?_, ?_⟩
        · simp only [replaceNoops, hz1, hs1]
        · rw [filledTyped_cons, hz3, hs2]
          rfl
        · rw [countSum_cons, countSum_cons, hz2, hs3]

theorem slotInv_refl (os : List RequestM) (cur : List RespM)
    (hall : allScanOrRev os = true) (hwt : wellTyped os cur = true) :
    slotInv os os cur = true :=
  slotInv_combine os os (os.map (fun _ => RespM.noop)) cur cur
    (slotInv_noops os hall) hwt (combineBatch_noops_left os cur hwt)

theorem slotInv_mask_first (os : List RequestM) (cur : List RespM)
    (hall : allScanOrRev os = true) (hwt : wellTyped os cur = true) :
    slotInv os (maskRequests os cur).1 cur = true :=
  slotInv_mask_combine os os (os.map (fun _ => RespM.noop)) cur cur
    (slotInv_noops os hall) hwt (combineBatch_noops_left os cur hwt)

theorem processRangeReply_done (K : Int) (os : List RequestM) (st : ChunkState)
    (cur : List RespM) (na : Bool) (br0 : List RespM)
    (hall : allScanOrRev os = true) (hinv : chunkInvP K os st)
    (hwt : wellTyped os cur = true)
    (h : processRangeReply st cur na = .done br0) :
    (countSum br0 : Int) ≤ K ∧
      ((countSum br0 : Int) = K → filledTyped os br0 = true) := by
  obtain ⟨hmax1, hmaxK, hbr⟩ := hinv
  rcases hbr with ⟨hn, hreq, hmaxEq⟩ | ⟨b, hsome, hslot, hcount⟩
  · -- first range: br == nil, the accumulated reply becomes curReply
    simp only [processRangeReply, hn] at h
    rw [if_pos (by omega : (0:Int) < st.maxScanResults)] at h
    by_cases hov : st.maxScanResults < (countSum cur : Int)
    · rw [if_pos hov] at h; simp at h
    · rw [if_neg hov] at h
      by_cases hrem : st.maxScanResults - (countSum cur : Int) = 0
      · rw [if_pos hrem] at h
        have hsl : slotInv os st.requests cur = true := by
          rw [hreq]; exact slotInv_refl os cur hall hwt
        obtain ⟨br2, hr1, hr2, hr3⟩ := replaceNoops_spec os st.requests cur hsl
        rw [hr1] at h
        injection h with h2
        subst h2
        constructor
        · rw [hr3]; omega
        · intro _; exact hr2
      · rw [if_neg hrem] at h
        simp only [afterBoundStep] at h
        cases na with
        | false =>
          simp only [Bool.false_eq_true, if_false] at h
          injection h with h2
          subst h2
          constructor
          · omega
          · intro heq; exfalso; omega
        | true =>
          simp only [if_true] at h
          rcases hm : (maskRequests st.requests cur).2 with _ | _
          · rw [hm] at h
            simp only [Bool.false_eq_true, if_false] at h
            injection h with h2
            subst h2
            constructor
            · omega
            · intro heq; exfalso; omega
          · rw [hm] at h
            simp only [if_true] at h
            simp at h
  · -- later range: combine the accumulated reply with curReply
    simp only [processRangeReply, hsome] at h
    rcases hcb : combineBatch b cur with _ | br'
    · simp only [hcb] at h; simp at h
    · simp only [hcb] at h
      have hslot2 : slotInv os st.requests br' = true :=
        slotInv_combine os st.requests b cur br' hslot hwt hcb
      have hcount2 : countSum br' = countSum b + countSum cur :=
        combineBatch_count b cur br' hcb
      rw [if_pos (by omega : (0:Int) < st.maxScanResults)] at h
      by_cases hov : st.maxScanResults < (countSum cur : Int)
      · rw [if_pos hov] at h; simp at h
      · rw [if_neg hov] at h
        by_cases hrem : st.maxScanResults - (countSum cur : Int) = 0
        · rw [if_pos hrem] at h
          obtain ⟨br2, hr1, hr2, hr3⟩ := replaceNoops_spec os st.requests br' hslot2
          rw [hr1] at h
          injection h with h2
          subst h2
          constructor
          · rw [hr3]; omega
          · intro _; exact hr2
        · rw [if_neg hrem] at h
          simp only [afterBoundStep] at h
          cases na with
          | false =>
            simp only [Bool.false_eq_true, if_false] at h
            injection h with h2
            subst h2
            constructor
            · omega
            · intro heq; exfalso; omega
          | true =>
            simp only [if_true] at h
            rcases hm : (maskRequests st.requests cur).2 with _ | _
            · rw [hm] at h
              simp only [Bool.false_eq_true, if_false] at h
              injection h with h2
              subst h2
              constructor
              · omega
              · intro heq; exfalso; omega
            · rw [hm] at h
              simp only [if_true] at h
              simp at h

theorem processRangeReply_continue (K : Int) (os : List RequestM) (st : ChunkState)
    (cur : List RespM) (na : Bool) (st2 : ChunkState)
    (hall : allScanOrRev os = true) (hinv : chunkInvP K os st)
    (hwt : wellTyped os cur = true)
    (h : processRangeReply st cur na = .continueLoop st2) :
    chunkInvP K os st2 := by
  obtain ⟨hmax1, hmaxK, hbr⟩ := hinv
  rcases hbr with ⟨hn, hreq, hmaxEq⟩ | ⟨b, hsome, hslot, hcount⟩
  · simp only [processRangeReply, hn] at h
    rw [if_pos (by omega : (0:Int) < st.maxScanResults)] at h
    by_cases hov : st.maxScanResults < (countSum cur : Int)
    · rw [if_pos hov] at h; simp at h
    · rw [if_neg hov] at h
      by_cases hrem : st.maxScanResults - (countSum cur : Int) = 0
      · rw [if_pos hrem] at h
        have hsl : slotInv os st.requests cur = true := by
          rw [hreq]; exact slotInv_refl os cur hall hwt
        obtain ⟨br2, hr1, -, -⟩ := replaceNoops_spec os st.requests cur hsl
        rw [hr1] at h
        simp at h
      · rw [if_neg hrem] at h
        simp only [afterBoundStep] at h
        cases na with
        | false => simp only [Bool.false_eq_true, if_false] at h; simp at h
        | true =>
          simp only [if_true] at h
          rcases hm : (maskRequests st.requests cur).2 with _ | _
          · rw [hm] at h
            simp only [Bool.false_eq_true, if_false] at h
            simp at h
          · rw [hm] at h
            simp only [if_true] at h
            injection h with h2
            subst h2
            refine ⟨?_, ?_, Or.inr ⟨cur, rfl, ?_, ?_⟩⟩
            · show (1:Int) ≤ st.maxScanResults - (countSum cur : Int)
              omega
            · show st.maxScanResults - (countSum cur : Int) ≤ K
              omega
            · show slotInv os (maskRequests st.requests cur).1 cur = true
              rw [hreq]
              exact slotInv_mask_first os cur hall hwt
            · show (countSum cur : Int) =
                K - (st.maxScanResults - (countSum cur : Int))
              omega
  · simp only [processRangeReply, hsome] at h
    rcases hcb : combineBatch b cur with _ | br'
    · simp only [hcb] at h; simp at h
    · simp only [hcb] at h
      have hslot2 : slotInv os st.requests br' = true :=
        slotInv_combine os st.requests b cur br' hslot hwt hcb
      have hcount2 : countSum br' = countSum b + countSum cur :=
        combineBatch_count b cur br' hcb
      rw [if_pos (by omega : (0:Int) < st.maxScanResults)] at h
      by_cases hov : st.maxScanResults < (countSum cur : Int)
      · rw [if_pos hov] at h; simp at h
      · rw [if_neg hov] at h
        by_cases hrem : st.maxScanResults - (countSum cur : Int) = 0
        · rw [if_pos hrem] at h
          obtain ⟨br2, hr1, -, -⟩ := replaceNoops_spec os st.requests br' hslot2
          rw [hr1] at h
          simp at h
        · rw [if_neg hrem] at h
          simp only [afterBoundStep] at h
          cases na with
          | false => simp only [Bool.false_eq_true, if_false] at h; simp at h
          | true =>
            simp only [if_true] at h
            rcases hm : (maskRequests st.requests cur).2 with _ | _
            · rw [hm] at h
              simp only [Bool.false_eq_true, if_false] at h
              simp at h
            · rw [hm] at h
              simp only [if_true] at h
              injection h with h2
              subst h2
              refine ⟨?_, ?_, Or.inr ⟨br', rfl, ?_, ?_⟩⟩
              · show (1:Int) ≤ st.maxScanResults - (countSum cur : Int)
                omega
              · show st.maxScanResults - (countSum cur : Int) ≤ K
                omega
              · show slotInv os (maskRequests st.requests cur).1 br' = true
                exact slotInv_mask_combine os st.requests b cur br' hslot hwt hcb
              · show (countSum br' : Int) =
                  K - (st.maxScanResults - (countSum cur : Int))
                omega

theorem chunkBoundLoop_done_spec (K : Int) (os : List RequestM)
    (hall : allScanOrRev os = true) :
    ∀ (inputs : List (List RespM × Bool)) (st : ChunkState) (br0 : List RespM),
      chunkInvP K os st →
      (∀ p ∈ inputs, wellTyped os p.1 = true) →
      chunkBoundLoop st inputs = .done br0 →
      (countSum br0 : Int) ≤ K ∧
        ((countSum br0 : Int) = K → filledTyped os br0 = true) := by
  intro inputs
  induction inputs with
  | nil => intro st br0 _ _ h; simp [chunkBoundLoop] at h
  | cons p rest ih =>
    intro st br0 hinv hwt h
    rcases p with ⟨cur, na⟩
    have hwt1 : wellTyped os cur = true := hwt (cur, na) (by simp)
    simp only [chunkBoundLoop] at h
    rcases hpr : processRangeReply st cur na with br | _ | stNext
    · rw [hpr] at h
      injection h with h2
      rw [← h2]
      exact processRangeReply_done K os st cur na br hall hinv hwt1 hpr
    · rw [hpr] at h; simp at h
    · rw [hpr] at h
      exact ih stNext br0
        (processRangeReply_continue K os st cur na stNext hall hinv hwt1 hpr)
        (fun q hq => hwt q (by simp [hq])) h

/-- C1: for a batch with global result bound `MaxScanResults = K > 0` —
whose requests are then all scans or all reverse scans — any successful run
of `sendChunk`'s per-range loop returns a combined response holding at most
`K` counted results summed across all ranges touched; and when exactly the
`K`-th result was reached, every request slot holds a non-no-op response
whose type matches its request kind (no-op slots having been replaced by
empty scan / reverse-scan responses before returning). -/
theorem sendChunk_max_scan_results_bound (K : Int) (os : List RequestM)
    (inputs : List (List RespM × Bool)) (br : List RespM)
    (hK : 0 < K) (hall : allScanOrRev os = true)
    (hwt : ∀ p ∈ inputs, wellTyped os p.1 = true)
    (hrun : chunkBoundLoop ⟨K, os, none⟩ inputs = .done br) :
    (countSum br : Int) ≤ K ∧
      ((countSum br : Int) = K → filledTyped os br = true) :=
  chunkBoundLoop_done_spec K os hall inputs ⟨K, os, none⟩ br
    ⟨by show (1:Int) ≤ K; omega, le_refl K, Or.inl ⟨rfl, rfl, rfl⟩⟩ hwt hrun

/-- C1, witness: bound 2 over one unbounded scan, two ranges returning one
row each; the loop stops at the bound with a correctly-typed reply of 2
rows. -/
theorem sendChunk_max_scan_results_bound_witness :
    ((0:Int) < 2) ∧ allScanOrRev [.scan 0 10 0] = true ∧
    (∀ p ∈ ([([.scanResp 1], true), ([.scanResp 1], true)] :
        List (List RespM × Bool)), wellTyped [.scan 0 10 0] p.1 = true) ∧
    chunkBoundLoop ⟨2, [.scan 0 10 0], none⟩
        [([.scanResp 1], true), ([.scanResp 1], true)] = .done [.scanResp 2] ∧
    ((countSum [.scanResp 2] : Int) ≤ 2 ∧
      ((countSum [.scanResp 2] : Int) = 2 →
        filledTyped [.scan 0 10 0] [.scanResp 2] = true)) :=
  ⟨by decide, by decide, by decide, by decide,
   sendChunk_max_scan_results_bound 2 [.scan 0 10 0]
     [([.scanResp 1], true), ([.scanResp 1], true)] [.scanResp 2]
     (by decide) (by decide) (by decide) (by decide)⟩

end CockroachKV
